import Mathlib

/-!
Verification of the Reno release-note tool (src/app.py,
src/pages/release_note_generator.py, src/pages/release_consolidator.py).

The development shallowly embeds the data transforms and session-state
protocol of the three Streamlit pages:

  * a JSON value type together with a serializer mirroring
    json.dumps(..., indent=2) with ensure_ascii, and a parser mirroring
    json.loads;
  * byte-level base64 encoding and the lenient CPython b64decode;
  * the UTF-8 text/bytes conversions used by str.encode and bytes.decode;
  * Python str.splitlines, str.strip, and "\n".join as used by the pages;
  * the deferred-load (rehydration) protocol of the generator page, the
    per-render form_data projection, and the consolidator ingestion,
    card projection and removal logic.

Machine integers do not occur; all arithmetic is on Nat.  Streamlit
widgets are modelled by their session-state contract as used by the
pages: a widget with a given key takes the value stored under that key
when one is present and its declared default otherwise.
-/

/-- JSON values as produced by json.loads.  Numbers keep the raw numeral
token consumed by the parser; objects keep their members in insertion
order, matching Python dict iteration order. -/
inductive Json where
  | null : Json
  | bool (b : Bool) : Json
  | num (tok : String) : Json
  | str (s : String) : Json
  | arr (elems : List Json) : Json
  | obj (members : List (String × Json)) : Json

mutual

def Json.beq : Json → Json → Bool
  | .null, .null => true
  | .bool a, .bool b => a == b
  | .num a, .num b => a == b
  | .str a, .str b => a == b
  | .arr a, .arr b => Json.beqList a b
  | .obj a, .obj b => Json.beqMembers a b
  | _, _ => false

def Json.beqList : List Json → List Json → Bool
  | [], [] => true
  | a :: as, b :: bs => (Json.beq a b && Json.beqList as bs)
  | _, _ => false

def Json.beqMembers : List (String × Json) → List (String × Json) → Bool
  | [], [] => true
  | (k, v) :: as, (k2, v2) :: bs => (k == k2 && Json.beq v v2 && Json.beqMembers as bs)
  | _, _ => false

end

mutual

theorem Json.eq_of_beq : ∀ {a b : Json}, Json.beq a b = true → a = b
  | .null, .null, _ => rfl
  | .bool a, .bool b, h => by simp [Json.beq] at h; simp [h]
  | .num a, .num b, h => by simp [Json.beq] at h; simp [h]
  | .str a, .str b, h => by simp [Json.beq] at h; simp [h]
  | .arr a, .arr b, h => by
      simp only [Json.beq] at h
      exact congrArg Json.arr (Json.eqList_of_beq h)
  | .obj a, .obj b, h => by
      simp only [Json.beq] at h
      exact congrArg Json.obj (Json.eqMembers_of_beq h)
  | .null, .bool _, h => by simp [Json.beq] at h
  | .null, .num _, h => by simp [Json.beq] at h
  | .null, .str _, h => by simp [Json.beq] at h
  | .null, .arr _, h => by simp [Json.beq] at h
  | .null, .obj _, h => by simp [Json.beq] at h
  | .bool _, .null, h => by simp [Json.beq] at h
  | .bool _, .num _, h => by simp [Json.beq] at h
  | .bool _, .str _, h => by simp [Json.beq] at h
  | .bool _, .arr _, h => by simp [Json.beq] at h
  | .bool _, .obj _, h => by simp [Json.beq] at h
  | .num _, .null, h => by simp [Json.beq] at h
  | .num _, .bool _, h => by simp [Json.beq] at h
  | .num _, .str _, h => by simp [Json.beq] at h
  | .num _, .arr _, h => by simp [Json.beq] at h
  | .num _, .obj _, h => by simp [Json.beq] at h
  | .str _, .null, h => by simp [Json.beq] at h
  | .str _, .bool _, h => by simp [Json.beq] at h
  | .str _, .num _, h => by simp [Json.beq] at h
  | .str _, .arr _, h => by simp [Json.beq] at h
  | .str _, .obj _, h => by simp [Json.beq] at h
  | .arr _, .null, h => by simp [Json.beq] at h
  | .arr _, .bool _, h => by simp [Json.beq] at h
  | .arr _, .num _, h => by simp [Json.beq] at h
  | .arr _, .str _, h => by simp [Json.beq] at h
  | .arr _, .obj _, h => by simp [Json.beq] at h
  | .obj _, .null, h => by simp [Json.beq] at h
  | .obj _, .bool _, h => by simp [Json.beq] at h
  | .obj _, .num _, h => by simp [Json.beq] at h
  | .obj _, .str _, h => by simp [Json.beq] at h
  | .obj _, .arr _, h => by simp [Json.beq] at h

theorem Json.eqList_of_beq : ∀ {a b : List Json}, Json.beqList a b = true → a = b
  | [], [], _ => rfl
  | a :: as, b :: bs, h => by
      simp only [Json.beqList, Bool.and_eq_true] at h
      rw [Json.eq_of_beq h.1, Json.eqList_of_beq h.2]
  | [], _ :: _, h => by simp [Json.beqList] at h
  | _ :: _, [], h => by simp [Json.beqList] at h

theorem Json.eqMembers_of_beq :
    ∀ {a b : List (String × Json)}, Json.beqMembers a b = true → a = b
  | [], [], _ => rfl
  | (k, v) :: as, (k2, v2) :: bs, h => by
      simp only [Json.beqMembers, Bool.and_eq_true] at h
      have hk : k = k2 := by simpa using h.1.1
      rw [Json.eq_of_beq h.1.2, Json.eqMembers_of_beq h.2, hk]
  | [], _ :: _, h => by simp [Json.beqMembers] at h
  | _ :: _, [], h => by simp [Json.beqMembers] at h

end

mutual

theorem Json.beq_refl : ∀ (a : Json), Json.beq a a = true
  | .null => rfl
  | .bool a => by simp [Json.beq]
  | .num a => by simp [Json.beq]
  | .str a => by simp [Json.beq]
  | .arr a => by simp only [Json.beq]; exact Json.beqList_refl a
  | .obj a => by simp only [Json.beq]; exact Json.beqMembers_refl a

theorem Json.beqList_refl : ∀ (a : List Json), Json.beqList a a = true
  | [] => rfl
  | a :: as => by
      simp only [Json.beqList, Bool.and_eq_true]
      exact ⟨Json.beq_refl a, Json.beqList_refl as⟩

theorem Json.beqMembers_refl : ∀ (a : List (String × Json)), Json.beqMembers a a = true
  | [] => rfl
  | (k, v) :: as => by
      simp only [Json.beqMembers, Bool.and_eq_true]
      exact ⟨⟨by simp, Json.beq_refl v⟩, Json.beqMembers_refl as⟩

end

instance : DecidableEq Json := fun a b =>
  if h : Json.beq a b = true then isTrue (Json.eq_of_beq h)
  else isFalse (fun he => h (he ▸ Json.beq_refl a))

/-- Lookup of a key in a JSON object member list, as Python dict lookup. -/
def jsonLookup (ms : List (String × Json)) (k : String) : Option Json :=
  match ms with
  | [] => none
  | (k2, v) :: rest => if k2 = k then some v else jsonLookup rest k

/-! ## Serialization: json.dumps(value, indent=2) with ensure_ascii -/

/-- Lowercase hexadecimal digit, as used by the \uXXXX escapes of
json.dumps. -/
def hexDigit (n : Nat) : Char :=
  if n < 10 then Char.ofNat (48 + n) else Char.ofNat (87 + n)

/-- Six-character escape sequence \uXXXX for a code unit below 0x10000. -/
def uEscape (n : Nat) : List Char :=
  ['\\', 'u', hexDigit (n / 4096 % 16), hexDigit (n / 256 % 16),
   hexDigit (n / 16 % 16), hexDigit (n % 16)]

/-- Escape of one character in a JSON string literal, following the
ensure_ascii encoder of json.dumps: quote and backslash get two-character
escapes, the five short control escapes are used, printable ASCII other
than the above is kept literally, and everything else becomes \uXXXX
(a surrogate pair for characters beyond the basic multilingual plane). -/
def escapeChar (c : Char) : List Char :=
  if c = '"' then ['\\', '"']
  else if c = '\\' then ['\\', '\\']
  else if c = '\x08' then ['\\', 'b']
  else if c = '\t' then ['\\', 't']
  else if c = '\n' then ['\\', 'n']
  else if c = '\x0c' then ['\\', 'f']
  else if c = '\r' then ['\\', 'r']
  else if 32 ≤ c.toNat ∧ c.toNat ≤ 126 then [c]
  else if c.toNat < 65536 then uEscape c.toNat
  else
    uEscape (55296 + (c.toNat - 65536) / 1024) ++ uEscape (56320 + (c.toNat - 65536) % 1024)

/-- Escaped body of a JSON string literal. -/
def escapeString (s : List Char) : List Char :=
  match s with
  | [] => []
  | c :: rest => escapeChar c ++ escapeString rest

/-- Quoted JSON string literal for a Lean string. -/
def quoteString (s : String) : List Char :=
  '"' :: (escapeString s.data ++ ['"'])

/-- Newline followed by d spaces: the separator json.dumps emits between
items when an indent is given (d is the full indentation width). -/
def nlIndent (d : Nat) : List Char :=
  '\n' :: List.replicate d ' '

mutual

/-- Characters emitted by json.dumps(v, indent=2) when the enclosing
container is indented by d spaces. -/
def dumpsVal : Json → Nat → List Char
  | .null, _ => ['n', 'u', 'l', 'l']
  | .bool true, _ => ['t', 'r', 'u', 'e']
  | .bool false, _ => ['f', 'a', 'l', 's', 'e']
  | .num t, _ => t.data
  | .str s, _ => quoteString s
  | .arr [], _ => ['[', ']']
  | .arr (x :: xs), d =>
      '[' :: (nlIndent (d + 2) ++ dumpsVal x (d + 2) ++ dumpsArrRest xs (d + 2) ++
        nlIndent d ++ [']'])
  | .obj [], _ => ['\x7b', '\x7d']
  | .obj (m :: ms), d =>
      '\x7b' :: (nlIndent (d + 2) ++ dumpsMember m (d + 2) ++ dumpsObjRest ms (d + 2) ++
        nlIndent d ++ ['\x7d'])

def dumpsArrRest : List Json → Nat → List Char
  | [], _ => []
  | x :: xs, d => ',' :: (nlIndent d ++ dumpsVal x d ++ dumpsArrRest xs d)

def dumpsMember : String × Json → Nat → List Char
  | (k, v), d => quoteString k ++ (':' :: ' ' :: dumpsVal v d)

def dumpsObjRest : List (String × Json) → Nat → List Char
  | [], _ => []
  | m :: ms, d => ',' :: (nlIndent d ++ dumpsMember m d ++ dumpsObjRest ms d)

end

/-- Full output of json.dumps(v, indent=2) as a character list. -/
def dumps (v : Json) : List Char := dumpsVal v 0

example : dumps (Json.obj []) = ['\x7b', '\x7d'] := by decide

example :
    dumps (Json.obj [("a", Json.arr [Json.bool true])]) =
      ('\x7b' :: "\n  \"a\": [\n    true\n  ]\n".data ++ ['\x7d']) := by decide

/-! ## Parsing: json.loads -/

/-- Whitespace skipped by the json.loads scanner (space, tab, newline,
carriage return only). -/
def isJsonWs (c : Char) : Bool :=
  c = ' ' || c = '\t' || c = '\n' || c = '\r'

/-- Drop leading JSON whitespace. -/
def skipWs : List Char → List Char
  | [] => []
  | c :: rest => if isJsonWs c then skipWs rest else c :: rest

/-- Value of one hexadecimal digit, upper or lower case. -/
def hexVal (c : Char) : Option Nat :=
  if '0' ≤ c ∧ c ≤ '9' then some (c.toNat - 48)
  else if 'a' ≤ c ∧ c ≤ 'f' then some (c.toNat - 87)
  else if 'A' ≤ c ∧ c ≤ 'F' then some (c.toNat - 55)
  else none

/-- Value of a four-digit hexadecimal code unit in a \uXXXX escape. -/
def hex4 (a b c d : Char) : Option Nat := do
  let va ← hexVal a
  let vb ← hexVal b
  let vc ← hexVal c
  let vd ← hexVal d
  pure (va * 4096 + vb * 256 + vc * 16 + vd)

/-- Translation of the short backslash escapes accepted by json.loads. -/
def simpleEscape (e : Char) : Option Char :=
  if e = '"' then some '"'
  else if e = '\\' then some '\\'
  else if e = '/' then some '/'
  else if e = 'b' then some '\x08'
  else if e = 'f' then some '\x0c'
  else if e = 'n' then some '\n'
  else if e = 'r' then some '\r'
  else if e = 't' then some '\t'
  else none

/-- Prepend a character to the first component of a parser result. -/
def consFst (c : Char) (p : List Char × List Char) : List Char × List Char :=
  (c :: p.1, p.2)

/-- Next decoded character of a JSON string body together with the input
that follows it: a backslash-u escape (combining a high/low surrogate
escape pair into one character), a short backslash escape, or a literal
character.  A lone surrogate escape is rejected here; CPython would
produce a lone surrogate code point, which has no counterpart among
Unicode scalar values. -/
def headToken : List Char → Option (Char × List Char)
  | '\\' :: 'u' :: a :: b :: c :: d :: rest =>
    (match hex4 a b c d with
    | none => none
    | some n =>
      if n < 55296 ∨ 57343 < n then some (Char.ofNat n, rest)
      else if n < 56320 then
        match rest with
        | '\\' :: 'u' :: a2 :: b2 :: c2 :: d2 :: rest2 =>
          (match hex4 a2 b2 c2 d2 with
          | none => none
          | some m =>
            if 56320 ≤ m ∧ m ≤ 57343 then
              some (Char.ofNat (65536 + (n - 55296) * 1024 + (m - 56320)), rest2)
            else none)
        | _ => none
      else none)
  | '\\' :: 'u' :: _ => none
  | '\\' :: e :: rest => (simpleEscape e).map (fun ch => (ch, rest))
  | ['\\'] => none
  | c :: rest => some (c, rest)
  | [] => none

/-- Body of a JSON string literal after the opening quote, with explicit
fuel: returns the decoded characters and the input after the closing
quote.  Follows the strict json.loads scanner: raw control characters
are rejected and escapes are decoded via headToken.  Each step consumes
at least one input character, so any fuel exceeding the input length is
enough. -/
def psbF : Nat → List Char → Option (List Char × List Char)
  | 0, _ => none
  | _ + 1, [] => none
  | fuel + 1, c :: rest =>
    if c = '"' then some ([], rest)
    else if c.toNat < 32 then none
    else
      match headToken (c :: rest) with
      | some (ch, rest2) => (psbF fuel rest2).map (consFst ch)
      | none => none

/-- Body of a JSON string literal after the opening quote. -/
def parseStringBody (l : List Char) : Option (List Char × List Char) :=
  psbF (l.length + 1) l

/-- Decimal digit test. -/
def isDigit (c : Char) : Bool := '0' ≤ c && c ≤ '9'

/-- Longest leading run of decimal digits. -/
def takeDigits : List Char → (List Char × List Char)
  | [] => ([], [])
  | c :: rest =>
      if isDigit c then
        let p := takeDigits rest
        (c :: p.1, p.2)
      else ([], c :: rest)

/-- Integer part of a JSON number: a lone 0, or a nonzero digit followed
by digits. -/
def parseIntPart : List Char → Option (List Char × List Char)
  | [] => none
  | c :: rest =>
      if c = '0' then some (['0'], rest)
      else if isDigit c then
        let p := takeDigits rest
        some (c :: p.1, p.2)
      else none

/-- Optional fraction part: a dot followed by at least one digit. -/
def parseFrac : List Char → (List Char × List Char)
  | '.' :: c :: rest =>
      if isDigit c then
        let p := takeDigits rest
        ('.' :: c :: p.1, p.2)
      else ([], '.' :: c :: rest)
  | l => ([], l)

/-- Optional exponent part: e or E, an optional sign, and at least one
digit. -/
def parseExp : List Char → (List Char × List Char)
  | e :: s :: c :: rest =>
      if (e = 'e' ∨ e = 'E') ∧ (s = '+' ∨ s = '-') ∧ isDigit c then
        let p := takeDigits rest
        (e :: s :: c :: p.1, p.2)
      else if (e = 'e' ∨ e = 'E') ∧ isDigit s then
        let p := takeDigits (c :: rest)
        (e :: s :: p.1, p.2)
      else ([], e :: s :: c :: rest)
  | [e, s] =>
      if (e = 'e' ∨ e = 'E') ∧ isDigit s then ([e, s], []) else ([], [e, s])
  | l => ([], l)

/-- Leading JSON number token, per the NUMBER_RE grammar of the json
module; returns the consumed characters and the remaining input. -/
def parseNumber : List Char → Option (List Char × List Char)
  | '-' :: rest =>
      (match parseIntPart rest with
      | none => none
      | some (ip, r) =>
          let f := parseFrac r
          let ex := parseExp f.2
          some ('-' :: (ip ++ f.1 ++ ex.1), ex.2))
  | l =>
      match parseIntPart l with
      | none => none
      | some (ip, r) =>
          let f := parseFrac r
          let ex := parseExp f.2
          some (ip ++ f.1 ++ ex.1, ex.2)

/-- Leading literal token check: consume the expected characters from
the front of the input and return the remainder, or fail. -/
def expectChars : List Char → List Char → Option (List Char)
  | [], l => some l
  | c :: cs, x :: xs => if x = c then expectChars cs xs else none
  | _ :: _, [] => none

mutual

/-- One JSON value, preceded by optional whitespace, per the json.loads
scanner: a string, one of the literal tokens null, true, false, NaN,
Infinity and -Infinity, an array, an object, or a number.  The fuel
argument bounds recursion depth; jsonLoads supplies enough for any
input. -/
def parseVal : Nat → List Char → Option (Json × List Char)
  | 0, _ => none
  | fuel + 1, l =>
    match skipWs l with
    | [] => none
    | c :: rest =>
      if c = '"' then (parseStringBody rest).map (fun p => (Json.str (String.mk p.1), p.2))
      else if c = 'n' then
        match expectChars ['u', 'l', 'l'] rest with
        | some r => some (Json.null, r)
        | none => none
      else if c = 't' then
        match expectChars ['r', 'u', 'e'] rest with
        | some r => some (Json.bool true, r)
        | none => none
      else if c = 'f' then
        match expectChars ['a', 'l', 's', 'e'] rest with
        | some r => some (Json.bool false, r)
        | none => none
      else if c = 'N' then
        match expectChars ['a', 'N'] rest with
        | some r => some (Json.num "NaN", r)
        | none => none
      else if c = 'I' then
        match expectChars ['n', 'f', 'i', 'n', 'i', 't', 'y'] rest with
        | some r => some (Json.num "Infinity", r)
        | none => none
      else if c = '[' then
        match skipWs rest with
        | [] => none
        | c2 :: rest2 =>
          if c2 = ']' then some (Json.arr [], rest2)
          else (parseElems fuel (c2 :: rest2)).map (fun p => (Json.arr p.1, p.2))
      else if c = '\x7b' then
        match skipWs rest with
        | [] => none
        | c2 :: rest2 =>
          if c2 = '\x7d' then some (Json.obj [], rest2)
          else (parseMembers fuel (c2 :: rest2)).map (fun p => (Json.obj p.1, p.2))
      else if c = '-' then
        match expectChars ['I', 'n', 'f', 'i', 'n', 'i', 't', 'y'] rest with
        | some r => some (Json.num "-Infinity", r)
        | none => (parseNumber (c :: rest)).map (fun p => (Json.num (String.mk p.1), p.2))
      else (parseNumber (c :: rest)).map (fun p => (Json.num (String.mk p.1), p.2))

/-- Nonempty comma-separated element list of an array, consuming the
closing bracket. -/
def parseElems : Nat → List Char → Option (List Json × List Char)
  | 0, _ => none
  | fuel + 1, l =>
    match parseVal fuel l with
    | none => none
    | some (v, r) =>
      match skipWs r with
      | [] => none
      | c :: r2 =>
        if c = ',' then (parseElems fuel r2).map (fun p => (v :: p.1, p.2))
        else if c = ']' then some ([v], r2)
        else none

/-- Nonempty key/value member list of an object, consuming the closing
brace.  Keys must be string literals, with optional whitespace around
the colon and after commas. -/
def parseMembers : Nat → List Char → Option (List (String × Json) × List Char)
  | 0, _ => none
  | fuel + 1, l =>
    match l with
    | [] => none
    | c :: rest =>
      if c = '"' then
        match parseStringBody rest with
        | none => none
        | some (k, r) =>
          match skipWs r with
          | [] => none
          | c2 :: r2 =>
            if c2 = ':' then
              match parseVal fuel r2 with
              | none => none
              | some (v, r3) =>
                match skipWs r3 with
                | [] => none
                | c3 :: r4 =>
                  if c3 = ',' then
                    (parseMembers fuel (skipWs r4)).map
                      (fun p => ((String.mk k, v) :: p.1, p.2))
                  else if c3 = '\x7d' then some ([(String.mk k, v)], r4)
                  else none
            else none
      else none

end

/-- Whole-input JSON parse, as json.loads: one value, with nothing but
whitespace allowed after it. -/
def jsonLoads (l : List Char) : Option Json :=
  match parseVal (2 * l.length + 2) l with
  | some (v, rest) => if skipWs rest = [] then some v else none
  | none => none

example : jsonLoads "5".data = some (Json.num "5") := by decide

example : jsonLoads "  \x7b \"a\" : [ true, null ] \x7d ".data =
    some (Json.obj [("a", Json.arr [Json.bool true, Json.null])]) := by decide

example : jsonLoads "\x7b\"a\":1".data = none := by decide

example : jsonLoads "[1,]".data = none := by decide

example : jsonLoads "\"a\\u00e9\\ud83d\\ude00b\"".data =
    some (Json.str (String.mk ['a', Char.ofNat 233, Char.ofNat 128512, 'b'])) := by decide

example : jsonLoads "01".data = none := by decide

example : jsonLoads "-1.5e-2".data = some (Json.num "-1.5e-2") := by decide

example : jsonLoads (dumps (Json.obj [("k", Json.str "v w")])) =
    some (Json.obj [("k", Json.str "v w")]) := by decide

/-! ## Round trip: jsonLoads after dumps -/

mutual

/-- Values containing no number leaves.  All records built by the form
pages are number free, since every field is a string, boolean, list or
object. -/
def numFree : Json → Bool
  | .null => true
  | .bool _ => true
  | .num _ => false
  | .str _ => true
  | .arr xs => numFreeList xs
  | .obj ms => numFreeMembers ms

def numFreeList : List Json → Bool
  | [] => true
  | x :: xs => numFree x && numFreeList xs

def numFreeMembers : List (String × Json) → Bool
  | [] => true
  | (_, v) :: ms => numFree v && numFreeMembers ms

end

mutual

/-- Fuel needed by parseVal to parse the serialized form of a value. -/
def needV : Json → Nat
  | .arr xs => 1 + needE xs
  | .obj ms => 1 + needM ms
  | _ => 1

def needE : List Json → Nat
  | [] => 1
  | x :: xs => 1 + needV x + needE xs

def needM : List (String × Json) → Nat
  | [] => 1
  | (_, v) :: ms => 1 + needV v + needM ms

end

theorem skipWs_not_ws (c : Char) (h : isJsonWs c = false) (l : List Char) :
    skipWs (c :: l) = c :: l := by
  simp [skipWs, h]

theorem skipWs_replicate_space (n : Nat) (l : List Char) :
    skipWs (List.replicate n ' ' ++ l) = skipWs l := by
  induction n with
  | zero => rfl
  | succ m ih => simpa [List.replicate_succ, skipWs, isJsonWs] using ih

theorem skipWs_nlIndent (d : Nat) (l : List Char) :
    skipWs (nlIndent d ++ l) = skipWs l := by
  simpa [nlIndent, skipWs, isJsonWs] using skipWs_replicate_space d l

theorem hexVal_hexDigit (m : Nat) (h : m < 16) : hexVal (hexDigit m) = some m := by
  interval_cases m <;> rfl

theorem hex4_digits (n : Nat) (h : n < 65536) :
    hex4 (hexDigit (n / 4096 % 16)) (hexDigit (n / 256 % 16))
      (hexDigit (n / 16 % 16)) (hexDigit (n % 16)) = some n := by
  have h1 := hexVal_hexDigit (n / 4096 % 16) (Nat.mod_lt _ (by norm_num))
  have h2 := hexVal_hexDigit (n / 256 % 16) (Nat.mod_lt _ (by norm_num))
  have h3 := hexVal_hexDigit (n / 16 % 16) (Nat.mod_lt _ (by norm_num))
  have h4 := hexVal_hexDigit (n % 16) (Nat.mod_lt _ (by norm_num))
  simp only [hex4, h1, h2, h3, h4, Option.bind_eq_bind, Option.some_bind, Option.some.injEq,
    bind, pure]
  omega

theorem char_toNat_valid (c : Char) : Nat.isValidChar c.toNat := c.valid

theorem headToken_lit (c : Char) (t : List Char) (h : ¬c = '\\') :
    headToken (c :: t) = some (c, t) := by
  cases t with
  | nil => simp [headToken, h]
  | cons e t2 => cases t2 with
    | nil => simp [headToken, h]
    | cons x t3 => cases t3 with
      | nil => simp [headToken, h]
      | cons x2 t4 => cases t4 with
        | nil => simp [headToken, h]
        | cons x3 t5 => cases t5 with
          | nil => simp [headToken, h]
          | cons x4 t6 => simp [headToken, h]

theorem headToken_simple (e : Char) (he : ¬e = 'u') (t : List Char) :
    headToken ('\\' :: e :: t) = (simpleEscape e).map (fun ch => (ch, t)) := by
  cases t with
  | nil => simp [headToken, he]
  | cons x t3 => cases t3 with
    | nil => simp [headToken, he]
    | cons x2 t4 => cases t4 with
      | nil => simp [headToken, he]
      | cons x3 t5 => cases t5 with
        | nil => simp [headToken, he]
        | cons x4 t6 => simp [headToken, he]

theorem headToken_u (a b c d : Char) (n : Nat) (t : List Char)
    (hx : hex4 a b c d = some n) (hs : n < 55296 ∨ 57343 < n) :
    headToken ('\\' :: 'u' :: a :: b :: c :: d :: t) = some (Char.ofNat n, t) := by
  simp only [headToken, hx]
  rw [if_pos hs]

theorem headToken_pair (a b c d a2 b2 c2 d2 : Char) (n m : Nat) (t : List Char)
    (hx : hex4 a b c d = some n) (hn : ¬(n < 55296 ∨ 57343 < n)) (hn2 : n < 56320)
    (hx2 : hex4 a2 b2 c2 d2 = some m) (hm : 56320 ≤ m ∧ m ≤ 57343) :
    headToken ('\\' :: 'u' :: a :: b :: c :: d :: ('\\' :: 'u' :: a2 :: b2 :: c2 :: d2 :: t)) =
      some (Char.ofNat (65536 + (n - 55296) * 1024 + (m - 56320)), t) := by
  simp only [headToken, hx, hx2]
  rw [if_neg hn, if_pos hn2, if_pos hm]

theorem psbF_escapeChar (c : Char) (fuel : Nat) (T : List Char) :
    psbF (fuel + 1) (escapeChar c ++ T) = (psbF fuel T).map (consFst c) := by
  by_cases h1 : c = '"'
  · subst h1
    simp [escapeChar, psbF, headToken_simple _ (by decide : ¬('"' : Char) = 'u'), simpleEscape]
  by_cases h2 : c = '\\'
  · subst h2
    simp [escapeChar, psbF, headToken_simple _ (by decide : ¬('\\' : Char) = 'u'), simpleEscape]
  by_cases h3 : c = '\x08'
  · subst h3
    simp [escapeChar, psbF, headToken_simple _ (by decide : ¬('b' : Char) = 'u'), simpleEscape]
  by_cases h4 : c = '\t'
  · subst h4
    simp [escapeChar, psbF, headToken_simple _ (by decide : ¬('t' : Char) = 'u'), simpleEscape]
  by_cases h5 : c = '\n'
  · subst h5
    simp [escapeChar, psbF, headToken_simple _ (by decide : ¬('n' : Char) = 'u'), simpleEscape]
  by_cases h6 : c = '\x0c'
  · subst h6
    simp [escapeChar, psbF, headToken_simple _ (by decide : ¬('f' : Char) = 'u'), simpleEscape]
  by_cases h7 : c = '\r'
  · subst h7
    simp [escapeChar, psbF, headToken_simple _ (by decide : ¬('r' : Char) = 'u'), simpleEscape]
  by_cases h8 : 32 ≤ c.toNat ∧ c.toNat ≤ 126
  · have he : escapeChar c = [c] := by
      rw [escapeChar, if_neg h1, if_neg h2, if_neg h3, if_neg h4, if_neg h5, if_neg h6,
        if_neg h7, if_pos h8]
    rw [he, List.cons_append, List.nil_append, psbF, if_neg h1,
      if_neg (show ¬(c.toNat < 32) by omega), headToken_lit c T h2]
  by_cases h9 : c.toNat < 65536
  · have he : escapeChar c = uEscape c.toNat := by
      rw [escapeChar, if_neg h1, if_neg h2, if_neg h3, if_neg h4, if_neg h5, if_neg h6,
        if_neg h7, if_neg h8, if_pos h9]
    have hsur : c.toNat < 55296 ∨ 57343 < c.toNat := by
      rcases char_toNat_valid c with h | ⟨ha, hb⟩
      · exact Or.inl h
      · exact Or.inr ha
    rw [he]
    simp only [uEscape, List.cons_append, List.nil_append]
    rw [psbF, if_neg (by decide : ¬('\\' : Char) = '"'),
      if_neg (by decide : ¬(('\\' : Char).toNat < 32)),
      headToken_u _ _ _ _ c.toNat T (hex4_digits c.toNat h9) hsur, Char.ofNat_toNat]
  · have he : escapeChar c =
        uEscape (55296 + (c.toNat - 65536) / 1024) ++
          uEscape (56320 + (c.toNat - 65536) % 1024) := by
      rw [escapeChar, if_neg h1, if_neg h2, if_neg h3, if_neg h4, if_neg h5, if_neg h6,
        if_neg h7, if_neg h8, if_neg h9]
    have hv : c.toNat < 1114112 := by
      rcases char_toNat_valid c with h | ⟨ha, hb⟩ <;> omega
    have hm : (c.toNat - 65536) % 1024 < 1024 := Nat.mod_lt _ (by norm_num)
    have hd : (c.toNat - 65536) / 1024 < 1024 := by omega
    have hhi : 55296 + (c.toNat - 65536) / 1024 < 65536 := by omega
    have hlo : 56320 + (c.toNat - 65536) % 1024 < 65536 := by omega
    have hcomb : 65536 + (55296 + (c.toNat - 65536) / 1024 - 55296) * 1024 +
        (56320 + (c.toNat - 65536) % 1024 - 56320) = c.toNat := by
      have := Nat.div_add_mod (c.toNat - 65536) 1024
      omega
    rw [he, List.append_assoc]
    simp only [uEscape, List.cons_append, List.nil_append]
    rw [psbF, if_neg (by decide : ¬('\\' : Char) = '"'),
      if_neg (by decide : ¬(('\\' : Char).toNat < 32)),
      headToken_pair _ _ _ _ _ _ _ _ _ _ T (hex4_digits _ hhi) (by omega) (by omega)
        (hex4_digits _ hlo) (by omega), hcomb, Char.ofNat_toNat]

theorem psbF_escapeString (s : List Char) (fuel : Nat) (rest : List Char)
    (h : s.length < fuel) :
    psbF fuel (escapeString s ++ '"' :: rest) = some (s, rest) := by
  induction s generalizing fuel with
  | nil =>
      cases fuel with
      | zero => omega
      | succ f => simp [escapeString, psbF]
  | cons c cs ih =>
      cases fuel with
      | zero => omega
      | succ f =>
          rw [escapeString, List.append_assoc, psbF_escapeChar,
            ih f (by simp at h; omega)]
          rfl

theorem escapeChar_length_pos (c : Char) : 1 ≤ (escapeChar c).length := by
  rw [escapeChar]
  split_ifs <;> simp [uEscape]

theorem escapeString_length (s : List Char) : s.length ≤ (escapeString s).length := by
  induction s with
  | nil => simp [escapeString]
  | cons c cs ih =>
      rw [escapeString]
      have := escapeChar_length_pos c
      simp only [List.length_append, List.length_cons]
      omega

theorem parseStringBody_escapeString (s tail : List Char) :
    parseStringBody (escapeString s ++ '"' :: tail) = some (s, tail) := by
  rw [parseStringBody]
  apply psbF_escapeString
  have := escapeString_length s
  simp only [List.length_append, List.length_cons]
  omega


theorem parseVal_nlIndent (fuel d : Nat) (l : List Char) :
    parseVal fuel (nlIndent d ++ l) = parseVal fuel l := by
  cases fuel with
  | zero => rfl
  | succ f => rw [parseVal, parseVal, skipWs_nlIndent]

theorem parseElems_nlIndent (fuel d : Nat) (l : List Char) :
    parseElems fuel (nlIndent d ++ l) = parseElems fuel l := by
  cases fuel with
  | zero => rfl
  | succ f => rw [parseElems, parseElems, parseVal_nlIndent]

/-- Serialized values are nonempty and begin with a distinctive
non-whitespace character (numbers excluded). -/
theorem dumpsVal_shape (j : Json) (d : Nat) (h : numFree j = true) :
    ∃ c t, dumpsVal j d = c :: t ∧
      (c = 'n' ∨ c = 't' ∨ c = 'f' ∨ c = '"' ∨ c = '[' ∨ c = '\x7b') := by
  cases j with
  | null => exact ⟨'n', _, rfl, by simp⟩
  | bool b => cases b with
    | true => exact ⟨'t', _, rfl, by simp⟩
    | false => exact ⟨'f', _, rfl, by simp⟩
  | num t => simp [numFree] at h
  | str s => exact ⟨'"', _, rfl, by simp [dumpsVal, quoteString]⟩
  | arr xs => cases xs with
    | nil => exact ⟨'[', _, rfl, by simp⟩
    | cons x rest => exact ⟨'[', _, rfl, by simp⟩
  | obj ms => cases ms with
    | nil => exact ⟨'\x7b', _, rfl, by simp⟩
    | cons m rest => exact ⟨'\x7b', _, rfl, by simp⟩

theorem skipWs_dumpsVal (j : Json) (d : Nat) (z : List Char) (h : numFree j = true) :
    skipWs (dumpsVal j d ++ z) = dumpsVal j d ++ z := by
  obtain ⟨c, t, ht, hc⟩ := dumpsVal_shape j d h
  rw [ht]
  rcases hc with rfl | rfl | rfl | rfl | rfl | rfl <;> simp [skipWs, isJsonWs]

theorem skipWs_space (l : List Char) : skipWs (' ' :: l) = skipWs l := by
  rw [skipWs, if_pos (by decide)]

theorem parseVal_space (fuel : Nat) (l : List Char) :
    parseVal fuel (' ' :: l) = parseVal fuel l := by
  cases fuel with
  | zero => rfl
  | succ f => rw [parseVal, parseVal, skipWs_space]

theorem stringMk_data (s : String) : String.mk s.data = s := rfl

theorem skipWs_dumpsMember (m : String × Json) (d : Nat) (z : List Char) :
    skipWs (dumpsMember m d ++ z) = dumpsMember m d ++ z := by
  obtain ⟨k, v⟩ := m
  simp only [dumpsMember, quoteString, List.cons_append]
  rw [skipWs_not_ws '"' (by decide)]

theorem parseVal_arr_step (fuel d dd : Nat) (x : Json) (hx : numFree x = true)
    (Y : List Char) :
    parseVal (fuel + 1) ('[' :: (nlIndent dd ++ (dumpsVal x d ++ Y))) =
      (parseElems fuel (dumpsVal x d ++ Y)).map (fun p => (Json.arr p.1, p.2)) := by
  obtain ⟨c, t, heq, hc⟩ := dumpsVal_shape x d hx
  rw [parseVal, skipWs_not_ws '[' (by decide), heq]
  rcases hc with rfl | rfl | rfl | rfl | rfl | rfl <;>
    simp [skipWs_nlIndent, skipWs_replicate_space, skipWs, isJsonWs]

theorem parseVal_obj_step (fuel d dd : Nat) (k : String) (v : Json) (Y : List Char) :
    parseVal (fuel + 1) ('\x7b' :: (nlIndent dd ++ (dumpsMember (k, v) d ++ Y))) =
      (parseMembers fuel (dumpsMember (k, v) d ++ Y)).map (fun p => (Json.obj p.1, p.2)) := by
  simp only [dumpsMember, quoteString, List.cons_append, List.append_assoc]
  rw [parseVal, skipWs_not_ws '\x7b' (by decide)]
  simp [skipWs_nlIndent, skipWs_replicate_space, skipWs, isJsonWs]

mutual

theorem parse_dumpsV : ∀ (j : Json) (d : Nat) (z : List Char) (fuel : Nat),
    numFree j = true → needV j ≤ fuel →
    parseVal fuel (dumpsVal j d ++ z) = some (j, z)
  | .null, d, z, fuel, _, hf => by
      cases fuel with
      | zero => simp [needV] at hf
      | succ f => rfl
  | .bool true, d, z, fuel, _, hf => by
      cases fuel with
      | zero => simp [needV] at hf
      | succ f => rfl
  | .bool false, d, z, fuel, _, hf => by
      cases fuel with
      | zero => simp [needV] at hf
      | succ f => rfl
  | .num t, d, z, fuel, hn, hf => by simp [numFree] at hn
  | .str s, d, z, fuel, _, hf => by
      cases fuel with
      | zero => simp [needV] at hf
      | succ f =>
          rw [parseVal]
          simp only [dumpsVal, quoteString, List.cons_append, List.append_assoc,
            List.singleton_append]
          rw [skipWs_not_ws '"' (by decide)]
          simp [parseStringBody_escapeString, stringMk_data]
  | .arr [], d, z, fuel, _, hf => by
      cases fuel with
      | zero => simp [needV] at hf
      | succ f => rfl
  | .arr (x :: xs), d, z, fuel, hn, hf => by
      have hx : numFree x = true := by
        simp [numFree, numFreeList] at hn; exact hn.1
      have hxs : numFreeList xs = true := by
        simp [numFree, numFreeList] at hn; exact hn.2
      cases fuel with
      | zero => simp [needV] at hf
      | succ f =>
          have hfx : needE (x :: xs) ≤ f := by simp [needV] at hf; omega
          simp only [dumpsVal, List.cons_append, List.append_assoc, List.singleton_append,
            List.nil_append]
          rw [parseVal_arr_step f (d + 2) (d + 2) x hx]
          rw [parse_dumpsE x xs (d + 2) d z f hx hxs hfx]
          rfl
  | .obj [], d, z, fuel, _, hf => by
      cases fuel with
      | zero => simp [needV] at hf
      | succ f => rfl
  | .obj ((k, v) :: ms), d, z, fuel, hn, hf => by
      have hv : numFree v = true := by
        simp [numFree, numFreeMembers] at hn; exact hn.1
      have hms : numFreeMembers ms = true := by
        simp [numFree, numFreeMembers] at hn; exact hn.2
      cases fuel with
      | zero => simp [needV] at hf
      | succ f =>
          have hfv : needM ((k, v) :: ms) ≤ f := by simp [needV] at hf; omega
          simp only [dumpsVal, List.cons_append, List.append_assoc, List.singleton_append,
            List.nil_append]
          rw [parseVal_obj_step f (d + 2) (d + 2) k v]
          rw [parse_dumpsM k v ms (d + 2) d z f hv hms hfv]
          rfl
termination_by j d z fuel h1 h2 => sizeOf j

theorem parse_dumpsE : ∀ (x : Json) (xs : List Json) (d d2 : Nat) (z : List Char) (fuel : Nat),
    numFree x = true → numFreeList xs = true → needE (x :: xs) ≤ fuel →
    parseElems fuel
        (dumpsVal x d ++ (dumpsArrRest xs d ++ (nlIndent d2 ++ (']' :: z)))) =
      some (x :: xs, z)
  | x, [], d, d2, z, fuel, hx, _, hf => by
      cases fuel with
      | zero => simp [needE] at hf
      | succ f =>
          rw [parseElems]
          simp only [dumpsArrRest, List.nil_append]
          rw [parse_dumpsV x d (nlIndent d2 ++ (']' :: z)) f hx (by simp [needE] at hf; omega)]
          simp [skipWs_nlIndent, skipWs_replicate_space, skipWs, isJsonWs]
  | x, y :: ys, d, d2, z, fuel, hx, hys, hf => by
      have hy : numFree y = true := by
        simp [numFreeList] at hys; exact hys.1
      have hys2 : numFreeList ys = true := by
        simp [numFreeList] at hys; exact hys.2
      cases fuel with
      | zero => simp [needE] at hf
      | succ f =>
          rw [parseElems]
          simp only [dumpsArrRest, List.cons_append, List.append_assoc]
          rw [parse_dumpsV x d _ f hx (by simp [needE] at hf; omega)]
          simp [skipWs, isJsonWs, parseElems_nlIndent]
          rw [parse_dumpsE y ys d d2 z f hy hys2
            (by simp only [needE] at hf ⊢; omega)]
termination_by x xs d d2 z fuel h1 h2 h3 => sizeOf x + sizeOf xs

theorem parse_dumpsM : ∀ (k : String) (v : Json) (ms : List (String × Json)) (d d2 : Nat)
    (z : List Char) (fuel : Nat),
    numFree v = true → numFreeMembers ms = true → needM ((k, v) :: ms) ≤ fuel →
    parseMembers fuel
        (dumpsMember (k, v) d ++ (dumpsObjRest ms d ++ (nlIndent d2 ++ ('\x7d' :: z)))) =
      some ((k, v) :: ms, z)
  | k, v, [], d, d2, z, fuel, hv, _, hf => by
      cases fuel with
      | zero => simp [needM] at hf
      | succ f =>
          simp only [dumpsMember, quoteString, dumpsObjRest, List.cons_append,
            List.append_assoc, List.singleton_append, List.nil_append]
          rw [parseMembers]
          simp [parseStringBody_escapeString, skipWs, isJsonWs, parseVal_space]
          rw [parse_dumpsV v d _ f hv (by simp [needM] at hf; omega)]
          simp [skipWs_nlIndent, skipWs_replicate_space, skipWs, isJsonWs, stringMk_data]
  | k, v, (k2, v2) :: ms2, d, d2, z, fuel, hv, hms, hf => by
      have hv2 : numFree v2 = true := by
        simp [numFreeMembers] at hms; exact hms.1
      have hms2 : numFreeMembers ms2 = true := by
        simp [numFreeMembers] at hms; exact hms.2
      cases fuel with
      | zero => simp [needM] at hf
      | succ f =>
          simp only [dumpsMember, quoteString, dumpsObjRest, List.cons_append,
            List.append_assoc, List.singleton_append, List.nil_append]
          rw [parseMembers]
          simp [parseStringBody_escapeString, skipWs, isJsonWs, parseVal_space]
          rw [parse_dumpsV v d _ f hv (by simp [needM] at hf; omega)]
          have hrec := parse_dumpsM k2 v2 ms2 d d2 z f hv2 hms2
            (by simp only [needM] at hf ⊢; omega)
          simp only [dumpsMember, quoteString, List.cons_append, List.append_assoc,
            List.nil_append] at hrec
          simp [skipWs_nlIndent, skipWs_replicate_space, skipWs, isJsonWs, stringMk_data, hrec]
termination_by k v ms d d2 z fuel h1 h2 h3 => sizeOf v + sizeOf ms

end

mutual

theorem needV_le : ∀ (j : Json) (d : Nat), needV j ≤ (dumpsVal j d).length + 1
  | .null, d => by simp [needV, dumpsVal]
  | .bool true, d => by simp [needV, dumpsVal]
  | .bool false, d => by simp [needV, dumpsVal]
  | .num t, d => by simp [needV, dumpsVal]
  | .str s, d => by simp [needV, dumpsVal]
  | .arr [], d => by simp [needV, needE, dumpsVal]
  | .arr (x :: xs), d => by
      have h1 := needV_le x (d + 2)
      have h2 := needE_le xs (d + 2)
      simp only [needV, needE, dumpsVal, List.length_cons, List.length_append, nlIndent,
        List.length_replicate]
      omega
  | .obj [], d => by simp [needV, needM, dumpsVal]
  | .obj ((k, v) :: ms), d => by
      have h1 := needV_le v (d + 2)
      have h2 := needM_le ms (d + 2)
      simp only [needV, needM, dumpsVal, dumpsMember, quoteString, List.length_cons,
        List.length_append, nlIndent, List.length_replicate]
      omega

theorem needE_le : ∀ (xs : List Json) (d : Nat), needE xs ≤ (dumpsArrRest xs d).length + 1
  | [], d => by simp [needE, dumpsArrRest]
  | x :: xs, d => by
      have h1 := needV_le x d
      have h2 := needE_le xs d
      simp only [needE, dumpsArrRest, List.length_cons, List.length_append, nlIndent,
        List.length_replicate]
      omega

theorem needM_le : ∀ (ms : List (String × Json)) (d : Nat),
    needM ms ≤ (dumpsObjRest ms d).length + 1
  | [], d => by simp [needM, dumpsObjRest]
  | (k, v) :: ms, d => by
      have h1 := needV_le v d
      have h2 := needM_le ms d
      simp only [needM, dumpsObjRest, dumpsMember, quoteString, List.length_cons,
        List.length_append, nlIndent, List.length_replicate]
      omega

end

/-- Round trip of the JSON layer: parsing the output of
json.dumps(v, indent=2) with json.loads recovers the value, for any
number-free JSON value. -/
theorem jsonLoads_dumps (j : Json) (h : numFree j = true) : jsonLoads (dumps j) = some j := by
  have hfuel : needV j ≤ 2 * (dumps j).length + 2 := by
    have := needV_le j 0
    simp only [dumps] at *
    omega
  have hv := parse_dumpsV j 0 [] (2 * (dumps j).length + 2) h hfuel
  rw [List.append_nil] at hv
  simp only [dumps] at hv
  rw [jsonLoads, show dumps j = dumpsVal j 0 from rfl, hv]
  rfl

/-! ## Base64: base64.b64encode and the lenient base64.b64decode -/

/-- Base64 alphabet character for a 6-bit value. -/
def b64Char (n : Nat) : Char :=
  if n < 26 then Char.ofNat (65 + n)
  else if n < 52 then Char.ofNat (97 + (n - 26))
  else if n < 62 then Char.ofNat (48 + (n - 52))
  else if n = 62 then '+'
  else '/'

/-- base64.b64encode over a byte list, producing the padded encoding. -/
def b64encode : List Nat → List Char
  | [] => []
  | [b1] => [b64Char (b1 / 4), b64Char (b1 % 4 * 16), '=', '=']
  | [b1, b2] =>
      [b64Char (b1 / 4), b64Char (b1 % 4 * 16 + b2 / 16), b64Char (b2 % 16 * 4), '=']
  | b1 :: b2 :: b3 :: rest =>
      b64Char (b1 / 4) :: b64Char (b1 % 4 * 16 + b2 / 16) ::
        b64Char (b2 % 16 * 4 + b3 / 64) :: b64Char (b3 % 64) :: b64encode rest

/-- Value of a base64 alphabet character, none for anything else. -/
def b64Val (c : Char) : Option Nat :=
  if 'A' ≤ c ∧ c ≤ 'Z' then some (c.toNat - 65)
  else if 'a' ≤ c ∧ c ≤ 'z' then some (c.toNat - 97 + 26)
  else if '0' ≤ c ∧ c ≤ '9' then some (c.toNat - 48 + 52)
  else if c = '+' then some 62
  else if c = '/' then some 63
  else none

/-- Core loop of CPython a2b_base64 in non-strict mode, as used by
base64.b64decode with validate left False: characters outside the
alphabet are discarded, padding is counted only once at least two data
characters of the current quad have been seen, decoding returns as soon
as padding completes a quad (whatever follows is ignored), and a data
character after incomplete padding resets the padding count.  quad is
the number of data characters seen in the current group (0 to 3), acc
the bits they carry, pads the padding characters counted so far, out
the output bytes in reverse order. -/
def b64decodeAux : List Char → Nat → Nat → Nat → List Nat → Option (List Nat)
  | [], quad, _, _, out =>
      if quad = 0 then some out.reverse else none
  | c :: rest, quad, acc, pads, out =>
      if c = '=' then
        if 2 ≤ quad then
          if 4 ≤ quad + (pads + 1) then some out.reverse
          else b64decodeAux rest quad acc (pads + 1) out
        else b64decodeAux rest quad acc pads out
      else
        match b64Val c with
        | none => b64decodeAux rest quad acc pads out
        | some v =>
          match quad with
          | 0 => b64decodeAux rest 1 v 0 out
          | 1 => b64decodeAux rest 2 (v % 16) 0 ((acc * 4 + v / 16) :: out)
          | 2 => b64decodeAux rest 3 (v % 4) 0 ((acc * 16 + v / 4) :: out)
          | _ => b64decodeAux rest 0 0 0 ((acc * 64 + v) :: out)

/-- base64.b64decode on a text argument: the text is first encoded with
the ascii codec (failing on any non-ASCII character), then decoded by
the non-strict a2b_base64 loop. -/
def b64decode (s : List Char) : Option (List Nat) :=
  if s.all (fun c => c.toNat < 128) then b64decodeAux s 0 0 0 [] else none

example : b64decode "QQ==".data = some [65] := by decide
example : b64decode "QUJDRA==".data = some [65, 66, 67, 68] := by decide
example : b64decode "QQ".data = none := by decide
example : b64decode "Q!Q==".data = some [65] := by decide
example : b64decode "QQ==QQ==".data = some [65] := by decide
example : b64decode "====".data = some [] := by decide
example : b64decode "QQ=a".data = none := by decide
example : b64decode "AB==CD".data = some [0] := by decide
example : b64decode "Q Q = =".data = some [65] := by decide
example : b64encode ("ABC".data.map Char.toNat) = "QUJD".data := by decide
example : b64encode [65] = "QQ==".data := by decide

theorem b64Val_b64Char (n : Nat) (h : n < 64) : b64Val (b64Char n) = some n := by
  interval_cases n <;> rfl

theorem b64Char_ne_pad (n : Nat) (h : n < 64) : ¬b64Char n = '=' := by
  interval_cases n <;> decide

theorem b64decodeAux_encode : ∀ (bs : List Nat), (∀ b ∈ bs, b < 256) → ∀ (out : List Nat),
    b64decodeAux (b64encode bs) 0 0 0 out = some (out.reverse ++ bs)
  | [], _, out => by simp [b64encode, b64decodeAux]
  | [b1], h, out => by
      have hb1 : b1 < 256 := h b1 (by simp)
      have h1 : b1 / 4 < 64 := by omega
      have h2 : b1 % 4 * 16 < 64 := by omega
      simp only [b64encode, b64decodeAux, if_neg (b64Char_ne_pad _ h1),
        if_neg (b64Char_ne_pad _ h2), b64Val_b64Char _ h1, b64Val_b64Char _ h2]
      simp
      omega
  | [b1, b2], h, out => by
      have hb1 : b1 < 256 := h b1 (by simp)
      have hb2 : b2 < 256 := h b2 (by simp)
      have h1 : b1 / 4 < 64 := by omega
      have h2 : b1 % 4 * 16 + b2 / 16 < 64 := by omega
      have h3 : b2 % 16 * 4 < 64 := by omega
      simp only [b64encode, b64decodeAux, if_neg (b64Char_ne_pad _ h1),
        if_neg (b64Char_ne_pad _ h2), if_neg (b64Char_ne_pad _ h3),
        b64Val_b64Char _ h1, b64Val_b64Char _ h2, b64Val_b64Char _ h3]
      simp
      omega
  | b1 :: b2 :: b3 :: rest, h, out => by
      have hb1 : b1 < 256 := h b1 (by simp)
      have hb2 : b2 < 256 := h b2 (by simp)
      have hb3 : b3 < 256 := h b3 (by simp)
      have h1 : b1 / 4 < 64 := by omega
      have h2 : b1 % 4 * 16 + b2 / 16 < 64 := by omega
      have h3 : b2 % 16 * 4 + b3 / 64 < 64 := by omega
      have h4 : b3 % 64 < 64 := by omega
      have hrest : ∀ b ∈ rest, b < 256 := fun b hb => h b (by simp [hb])
      simp only [b64encode, b64decodeAux, if_neg (b64Char_ne_pad _ h1),
        if_neg (b64Char_ne_pad _ h2), if_neg (b64Char_ne_pad _ h3),
        if_neg (b64Char_ne_pad _ h4), b64Val_b64Char _ h1, b64Val_b64Char _ h2,
        b64Val_b64Char _ h3, b64Val_b64Char _ h4]
      rw [b64decodeAux_encode rest hrest]
      simp
      omega

theorem b64Char_ascii (n : Nat) (h : n < 64) : (b64Char n).toNat < 128 := by
  interval_cases n <;> decide

theorem b64encode_ascii : ∀ (bs : List Nat), (∀ b ∈ bs, b < 256) →
    ∀ c ∈ b64encode bs, c.toNat < 128
  | [], _ => by simp [b64encode]
  | [b1], h => by
      have hb1 : b1 < 256 := h b1 (by simp)
      simp only [b64encode, List.mem_cons, List.not_mem_nil, or_false]
      rintro c (rfl | rfl | rfl | rfl)
      · exact b64Char_ascii _ (by omega)
      · exact b64Char_ascii _ (by omega)
      · decide
      · decide
  | [b1, b2], h => by
      have hb1 : b1 < 256 := h b1 (by simp)
      have hb2 : b2 < 256 := h b2 (by simp)
      simp only [b64encode, List.mem_cons, List.not_mem_nil, or_false]
      rintro c (rfl | rfl | rfl | rfl)
      · exact b64Char_ascii _ (by omega)
      · exact b64Char_ascii _ (by omega)
      · exact b64Char_ascii _ (by omega)
      · decide
  | b1 :: b2 :: b3 :: rest, h => by
      have hb1 : b1 < 256 := h b1 (by simp)
      have hb2 : b2 < 256 := h b2 (by simp)
      have hb3 : b3 < 256 := h b3 (by simp)
      have hrest : ∀ b ∈ rest, b < 256 := fun b hb => h b (by simp [hb])
      simp only [b64encode, List.mem_cons]
      rintro c (rfl | rfl | rfl | rfl | hc)
      · exact b64Char_ascii _ (by omega)
      · exact b64Char_ascii _ (by omega)
      · exact b64Char_ascii _ (by omega)
      · exact b64Char_ascii _ (by omega)
      · exact b64encode_ascii rest hrest c hc

/-- Round trip of the base64 layer: decoding an encoded byte list
recovers it exactly. -/
theorem b64decode_encode (bs : List Nat) (h : ∀ b ∈ bs, b < 256) :
    b64decode (b64encode bs) = some bs := by
  rw [b64decode, if_pos (by
    rw [List.all_eq_true]
    intro c hc
    simpa using b64encode_ascii bs h c hc)]
  simpa using b64decodeAux_encode bs h []

/-! ## UTF-8: str.encode and bytes.decode -/

/-- UTF-8 encoding of one Unicode scalar value. -/
def utf8EncodeChar (c : Char) : List Nat :=
  let n := c.toNat
  if n < 128 then [n]
  else if n < 2048 then [192 + n / 64, 128 + n % 64]
  else if n < 65536 then [224 + n / 4096, 128 + n / 64 % 64, 128 + n % 64]
  else [240 + n / 262144, 128 + n / 4096 % 64, 128 + n / 64 % 64, 128 + n % 64]

/-- str.encode: UTF-8 encoding of a character list. -/
def utf8Encode : List Char → List Nat
  | [] => []
  | c :: rest => utf8EncodeChar c ++ utf8Encode rest

/-- Decoding of the leading UTF-8 sequence of a byte list: the decoded
character and the remaining bytes.  Strict, as bytes.decode: stray
continuation bytes, truncated sequences, overlong encodings, surrogates
and values beyond the Unicode range are rejected. -/
def utf8Step : List Nat → Option (Char × List Nat)
  | [] => none
  | b :: rest =>
    if b < 128 then some (Char.ofNat b, rest)
    else if b < 192 then none
    else if b < 224 then
      match rest with
      | b2 :: rest2 =>
        if 128 ≤ b2 ∧ b2 < 192 then
          if 128 ≤ (b - 192) * 64 + (b2 - 128) then
            some (Char.ofNat ((b - 192) * 64 + (b2 - 128)), rest2)
          else none
        else none
      | [] => none
    else if b < 240 then
      match rest with
      | b2 :: b3 :: rest2 =>
        if (128 ≤ b2 ∧ b2 < 192) ∧ (128 ≤ b3 ∧ b3 < 192) then
          if 2048 ≤ (b - 224) * 4096 + (b2 - 128) * 64 + (b3 - 128) ∧
              ((b - 224) * 4096 + (b2 - 128) * 64 + (b3 - 128) < 55296 ∨
                57343 < (b - 224) * 4096 + (b2 - 128) * 64 + (b3 - 128)) then
            some (Char.ofNat ((b - 224) * 4096 + (b2 - 128) * 64 + (b3 - 128)), rest2)
          else none
        else none
      | _ => none
    else if b < 245 then
      match rest with
      | b2 :: b3 :: b4 :: rest2 =>
        if (128 ≤ b2 ∧ b2 < 192) ∧ (128 ≤ b3 ∧ b3 < 192) ∧ (128 ≤ b4 ∧ b4 < 192) then
          if 65536 ≤ (b - 240) * 262144 + (b2 - 128) * 4096 + (b3 - 128) * 64 + (b4 - 128) ∧
              (b - 240) * 262144 + (b2 - 128) * 4096 + (b3 - 128) * 64 + (b4 - 128) <
                1114112 then
            some
              (Char.ofNat
                  ((b - 240) * 262144 + (b2 - 128) * 4096 + (b3 - 128) * 64 + (b4 - 128)),
                rest2)
          else none
        else none
      | _ => none
    else none

/-- Fuel-driven UTF-8 decoding loop; each step consumes at least one
byte, so any fuel exceeding the input length is enough. -/
def utf8DecodeF : Nat → List Nat → Option (List Char)
  | 0, _ => none
  | fuel + 1, l =>
    if l = [] then some []
    else
      match utf8Step l with
      | some (c, rest2) => (utf8DecodeF fuel rest2).map (fun l2 => c :: l2)
      | none => none

/-- bytes.decode: strict UTF-8 decoding of a byte list. -/
def utf8Decode (bs : List Nat) : Option (List Char) :=
  utf8DecodeF (bs.length + 1) bs

theorem charToNat_ofNat (n : Nat) (h : Nat.isValidChar n) : (Char.ofNat n).toNat = n := by
  unfold Char.ofNat
  rw [dif_pos h]
  rfl

theorem utf8EncodeChar_ne_nil (c : Char) : ¬utf8EncodeChar c = [] := by
  rw [utf8EncodeChar]
  split_ifs <;> simp

/-- Decoding the UTF-8 encoding of one character consumes exactly that
encoding. -/
theorem utf8Step_encodeChar (c : Char) (rest : List Nat) :
    utf8Step (utf8EncodeChar c ++ rest) = some (c, rest) := by
  have hval := char_toNat_valid c
  have hlt : c.toNat < 1114112 := by rcases hval with h | ⟨ha, hb⟩ <;> omega
  by_cases h1 : c.toNat < 128
  · simp only [utf8EncodeChar, if_pos h1, List.cons_append, List.nil_append, utf8Step]
    rw [Char.ofNat_toNat]
  by_cases h2 : c.toNat < 2048
  · simp only [utf8EncodeChar, if_neg h1, if_pos h2, List.cons_append, List.nil_append,
      utf8Step]
    have d1 : c.toNat / 64 < 32 := by omega
    rw [if_neg (by omega), if_neg (by omega), if_pos (by omega)]
    have eb : 192 + c.toNat / 64 - 192 = c.toNat / 64 := by omega
    have eb2 : 128 + c.toNat % 64 - 128 = c.toNat % 64 := by omega
    rw [if_pos (by constructor <;> omega)]
    rw [eb, eb2]
    rw [if_pos (by omega)]
    have ev : c.toNat / 64 * 64 + c.toNat % 64 = c.toNat := by omega
    rw [ev, Char.ofNat_toNat]
  by_cases h3 : c.toNat < 65536
  · have hsur : c.toNat < 55296 ∨ 57343 < c.toNat := by
      rcases hval with h | ⟨ha, hb⟩
      · exact Or.inl h
      · exact Or.inr ha
    simp only [utf8EncodeChar, if_neg h1, if_neg h2, if_pos h3, List.cons_append,
      List.nil_append, utf8Step]
    have d1 : c.toNat / 4096 < 16 := by omega
    rw [if_neg (by omega), if_neg (by omega), if_neg (by omega), if_pos (by omega)]
    rw [if_pos (by refine ⟨⟨by omega, by omega⟩, by omega, by omega⟩)]
    have eb : 224 + c.toNat / 4096 - 224 = c.toNat / 4096 := by omega
    have eb2 : 128 + c.toNat / 64 % 64 - 128 = c.toNat / 64 % 64 := by omega
    have eb3 : 128 + c.toNat % 64 - 128 = c.toNat % 64 := by omega
    rw [eb, eb2, eb3]
    have ev : c.toNat / 4096 * 4096 + c.toNat / 64 % 64 * 64 + c.toNat % 64 = c.toNat := by
      omega
    rw [if_pos (by rw [ev]; exact ⟨by omega, hsur⟩)]
    rw [ev, Char.ofNat_toNat]
  · simp only [utf8EncodeChar, if_neg h1, if_neg h2, if_neg h3, List.cons_append,
      List.nil_append, utf8Step]
    have d1 : c.toNat / 262144 < 5 := by omega
    rw [if_neg (by omega), if_neg (by omega), if_neg (by omega), if_neg (by omega),
      if_pos (by omega)]
    rw [if_pos (by refine ⟨⟨by omega, by omega⟩, ⟨by omega, by omega⟩, by omega, by omega⟩)]
    have eb : 240 + c.toNat / 262144 - 240 = c.toNat / 262144 := by omega
    have eb2 : 128 + c.toNat / 4096 % 64 - 128 = c.toNat / 4096 % 64 := by omega
    have eb3 : 128 + c.toNat / 64 % 64 - 128 = c.toNat / 64 % 64 := by omega
    have eb4 : 128 + c.toNat % 64 - 128 = c.toNat % 64 := by omega
    rw [eb, eb2, eb3, eb4]
    have ev : c.toNat / 262144 * 262144 + c.toNat / 4096 % 64 * 4096 +
        c.toNat / 64 % 64 * 64 + c.toNat % 64 = c.toNat := by omega
    rw [if_pos (by rw [ev]; exact ⟨by omega, hlt⟩)]
    rw [ev, Char.ofNat_toNat]

theorem utf8DecodeF_encode (s : List Char) : ∀ (fuel : Nat), s.length < fuel →
    utf8DecodeF fuel (utf8Encode s) = some s := by
  induction s with
  | nil =>
      intro fuel hf
      cases fuel with
      | zero => omega
      | succ f => rfl
  | cons c cs ih =>
      intro fuel hf
      cases fuel with
      | zero => omega
      | succ f =>
          rw [utf8DecodeF,
            if_neg (by
              simp only [utf8Encode]
              intro hemp
              exact utf8EncodeChar_ne_nil c (List.append_eq_nil.mp hemp).1),
            show utf8Encode (c :: cs) = utf8EncodeChar c ++ utf8Encode cs from rfl,
            utf8Step_encodeChar]
          simp [ih f (by simp at hf; omega)]

theorem utf8EncodeChar_length_pos (c : Char) : 1 ≤ (utf8EncodeChar c).length := by
  rw [utf8EncodeChar]
  split_ifs <;> simp

theorem utf8Encode_length (s : List Char) : s.length ≤ (utf8Encode s).length := by
  induction s with
  | nil => simp [utf8Encode]
  | cons c cs ih =>
      rw [utf8Encode]
      have := utf8EncodeChar_length_pos c
      simp only [List.length_append, List.length_cons]
      omega

/-- Round trip of the UTF-8 layer. -/
theorem utf8Decode_encode (s : List Char) : utf8Decode (utf8Encode s) = some s := by
  rw [utf8Decode]
  exact utf8DecodeF_encode s _ (by have := utf8Encode_length s; omega)

theorem utf8EncodeChar_lt_256 (c : Char) : ∀ b ∈ utf8EncodeChar c, b < 256 := by
  have hval := char_toNat_valid c
  have hlt : c.toNat < 1114112 := by rcases hval with h | ⟨ha, hb⟩ <;> omega
  rw [utf8EncodeChar]
  split_ifs with h1 h2 h3 <;> intro b hb <;> simp at hb <;> omega

theorem utf8Encode_lt_256 (s : List Char) : ∀ b ∈ utf8Encode s, b < 256 := by
  induction s with
  | nil => simp [utf8Encode]
  | cons c cs ih =>
      intro b hb
      rw [utf8Encode] at hb
      rcases List.mem_append.mp hb with h | h
      · exact utf8EncodeChar_lt_256 c b h
      · exact ih b h

/-! ## The page codec: Export to base64, and the consolidator decoder -/

/-- Text produced by the Export to base64 button of the generator page:
base64.b64encode(json_str.encode()).decode() where json_str is
json.dumps(form_data, indent=2).  The final .decode() only converts the
ASCII base64 bytes back to text and is the identity here. -/
def export_b64 (v : Json) : List Char :=
  b64encode (utf8Encode (dumps v))

/-- The consolidator helper _decode_b64_to_json, also the body of the
generator page Load from base64 handler: base64-decode the pasted text,
decode the bytes as UTF-8 and parse them as JSON.  Any failure in the
three stages raises and is caught as the single ValueError, modelled as
none. -/
def decode_b64_to_json (s : List Char) : Option Json :=
  match b64decode s with
  | none => none
  | some bytes =>
    match utf8Decode bytes with
    | none => none
    | some txt => jsonLoads txt

/-- Round trip of the full codec pipeline on any number-free JSON
value. -/
theorem decode_b64_to_json_export (v : Json) (h : numFree v = true) :
    decode_b64_to_json (export_b64 v) = some v := by
  rw [decode_b64_to_json, export_b64,
    b64decode_encode (utf8Encode (dumps v)) (utf8Encode_lt_256 (dumps v))]
  simp [utf8Decode_encode, jsonLoads_dumps v h]

example : decode_b64_to_json "NQ==".data = some (Json.num "5") := by decide

example : decode_b64_to_json "!!!".data = none := by decide

example : decode_b64_to_json "e30=".data = some (Json.obj []) := by decide

/-! ## Python string helpers: strip, splitlines, join -/

/-- Unicode whitespace as recognised by Python str.strip with no
argument (the characters for which str.isspace holds). -/
def pyIsSpace (c : Char) : Bool :=
  (9 ≤ c.toNat && c.toNat ≤ 13) || (28 ≤ c.toNat && c.toNat ≤ 32) ||
  c.toNat = 133 || c.toNat = 160 || c.toNat = 5760 ||
  (8192 ≤ c.toNat && c.toNat ≤ 8202) || c.toNat = 8232 || c.toNat = 8233 ||
  c.toNat = 8239 || c.toNat = 8287 || c.toNat = 12288

/-- Characters remaining after stripping whitespace from both ends,
as Python str.strip(). -/
def pyStripChars (l : List Char) : List Char :=
  ((l.dropWhile pyIsSpace).reverse.dropWhile pyIsSpace).reverse

/-- Python str.strip(). -/
def pyStrip (s : String) : String :=
  String.mk (pyStripChars s.data)

/-- Line boundaries recognised by Python str.splitlines: LF, VT, FF,
CR, FS, GS, RS, NEL, LINE SEPARATOR and PARAGRAPH SEPARATOR (with CRLF
counting as one boundary). -/
def isLineBoundary (c : Char) : Bool :=
  c.toNat = 10 || c.toNat = 11 || c.toNat = 12 || c.toNat = 13 ||
  c.toNat = 28 || c.toNat = 29 || c.toNat = 30 || c.toNat = 133 ||
  c.toNat = 8232 || c.toNat = 8233

/-- Accumulator loop of str.splitlines: emit the accumulated line at
each boundary (consuming CRLF as one), and at the end emit the last
line only when it is nonempty (splitlines never yields a trailing
empty line).  Fuel only bounds the recursion; at least one character
is consumed per step. -/
def splitlinesF : Nat → List Char → List Char → List (List Char)
  | 0, _, _ => []
  | _ + 1, [], acc => if acc = [] then [] else [acc.reverse]
  | fuel + 1, c :: rest, acc =>
    if c = '\r' then
      acc.reverse :: splitlinesF fuel (if rest.head? = some '\n' then rest.tail else rest) []
    else if isLineBoundary c then acc.reverse :: splitlinesF fuel rest []
    else splitlinesF fuel rest (c :: acc)

/-- Python str.splitlines(). -/
def pySplitlines (s : String) : List String :=
  (splitlinesF (s.data.length + 1) s.data []).map String.mk

/-- Characters of sep.join(pieces). -/
def joinSep (sep : List Char) : List (List Char) → List Char
  | [] => []
  | [l] => l
  | l :: l2 :: rest => l ++ sep ++ joinSep sep (l2 :: rest)

/-- Python sep.join(pieces). -/
def pyJoin (sep : String) (pieces : List String) : String :=
  String.mk (joinSep sep.data (pieces.map String.data))

example : pySplitlines "a\nb" = ["a", "b"] := by decide
example : pySplitlines "a\n" = ["a"] := by decide
example : pySplitlines "\n" = [""] := by decide
example : pySplitlines "" = [] := by decide
example : pySplitlines "a\r\nb\x1cc" = ["a", "b", "c"] := by decide
example : pyStrip "  a b\t\n" = "a b" := by decide
example : pyStrip "\x1c\x1d" = "" := by decide
example : pyJoin "\n" ["a", "b", "c"] = "a\nb\nc" := by decide

/-- The link parser _parse_links of the generator page (parse_links in
app.py): one entry per line of the input that is nonblank after
stripping, each entry stripped. -/
def parse_links (text : String) : List String :=
  ((pySplitlines text).filter (fun l => !(pyStrip l == ""))).map pyStrip

example : parse_links "  https://x/1  \n\n https://x/2\n" = ["https://x/1", "https://x/2"] := by
  decide

example : parse_links "" = [] := by decide

/-! ### Properties of strip -/

theorem dropWhile_head_false (p : Char → Bool) :
    ∀ (l : List Char) (c : Char), (l.dropWhile p).head? = some c → p c = false := by
  intro l
  induction l with
  | nil => intro c h; simp at h
  | cons a rest ih =>
    intro c h
    by_cases ha : p a
    · rw [List.dropWhile_cons_of_pos ha] at h
      exact ih c h
    · rw [List.dropWhile_cons_of_neg ha] at h
      simp at h
      rw [h] at ha
      simp [Bool.not_eq_true] at ha
      exact ha

theorem dropWhile_eq_self_of_head (p : Char → Bool) (l : List Char)
    (h : ∀ c, l.head? = some c → p c = false) : l.dropWhile p = l := by
  cases l with
  | nil => rfl
  | cons a rest =>
    have := h a (by simp)
    rw [List.dropWhile_cons_of_neg (by simp [this])]

theorem exists_dropWhile_prefix (p : Char → Bool) :
    ∀ (l : List Char), ∃ t, l = t ++ l.dropWhile p := by
  intro l
  induction l with
  | nil => exact ⟨[], rfl⟩
  | cons a rest ih =>
    by_cases ha : p a
    · obtain ⟨t, ht⟩ := ih
      refine ⟨a :: t, ?_⟩
      rw [List.dropWhile_cons_of_pos ha, List.cons_append]
      rw [← ht]
    · exact ⟨[], by rw [List.dropWhile_cons_of_neg ha]; rfl⟩

theorem mem_dropWhile_imp (p : Char → Bool) (l : List Char) (c : Char)
    (h : c ∈ l.dropWhile p) : c ∈ l := by
  obtain ⟨t, ht⟩ := exists_dropWhile_prefix p l
  rw [ht]
  exact List.mem_append_right t h

theorem mem_pyStripChars (x : List Char) (c : Char) (h : c ∈ pyStripChars x) : c ∈ x := by
  simp only [pyStripChars, List.mem_reverse] at h
  have h2 := mem_dropWhile_imp _ _ _ h
  rw [List.mem_reverse] at h2
  exact mem_dropWhile_imp _ _ _ h2

theorem pyStripChars_getLast (x : List Char) (c : Char)
    (h : (pyStripChars x).getLast? = some c) : pyIsSpace c = false := by
  simp only [pyStripChars, List.getLast?_reverse] at h
  exact dropWhile_head_false pyIsSpace _ c h

theorem pyStripChars_head (x : List Char) (c : Char)
    (h : (pyStripChars x).head? = some c) : pyIsSpace c = false := by
  obtain ⟨t, ht⟩ := exists_dropWhile_prefix pyIsSpace (x.dropWhile pyIsSpace).reverse
  have hm : x.dropWhile pyIsSpace = pyStripChars x ++ t.reverse := by
    have h2 := congrArg List.reverse ht
    rw [List.reverse_reverse, List.reverse_append] at h2
    exact h2
  apply dropWhile_head_false pyIsSpace x c
  rw [hm]
  cases hr : pyStripChars x with
  | nil => rw [hr] at h; simp at h
  | cons a s =>
    rw [hr] at h
    simp at h
    simp [h]

theorem pyStripChars_noop (x : List Char)
    (h1 : ∀ c, x.head? = some c → pyIsSpace c = false)
    (h2 : ∀ c, x.getLast? = some c → pyIsSpace c = false) : pyStripChars x = x := by
  have e1 : x.dropWhile pyIsSpace = x := dropWhile_eq_self_of_head _ _ h1
  have e2 : x.reverse.dropWhile pyIsSpace = x.reverse := by
    apply dropWhile_eq_self_of_head
    intro c hc
    rw [List.head?_reverse] at hc
    exact h2 c hc
  simp only [pyStripChars, e1, e2, List.reverse_reverse]

theorem pyStripChars_idem (x : List Char) : pyStripChars (pyStripChars x) = pyStripChars x :=
  pyStripChars_noop _ (fun c hc => pyStripChars_head x c hc)
    (fun c hc => pyStripChars_getLast x c hc)

theorem pyStrip_idem (s : String) : pyStrip (pyStrip s) = pyStrip s := by
  simp only [pyStrip, stringMk_data, pyStripChars_idem]

/-! ### Properties of splitlines and join -/

theorem slF_noboundary (l : List Char) : ∀ (fuel : Nat) (acc : List Char),
    l.length < fuel → (∀ c ∈ l, isLineBoundary c = false) →
    acc.reverse ++ l ≠ [] →
    splitlinesF fuel l acc = [acc.reverse ++ l] := by
  induction l with
  | nil =>
    intro fuel acc hf hb hne
    cases fuel with
    | zero => omega
    | succ f =>
      simp only [splitlinesF]
      rw [if_neg]
      · simp
      · intro h
        apply hne
        simp [h]
  | cons c rest ih =>
    intro fuel acc hf hb hne
    cases fuel with
    | zero => omega
    | succ f =>
      have hc : isLineBoundary c = false := hb c (by simp)
      have hcr : ¬ c = '\r' := by
        intro h
        rw [h] at hc
        simp [isLineBoundary] at hc
      simp only [splitlinesF]
      rw [if_neg hcr, if_neg (by simp [hc])]
      rw [ih f (c :: acc) (by simp at hf ⊢; omega)
        (fun d hd => hb d (List.mem_cons_of_mem _ hd)) (by simp)]
      simp

theorem slF_cons_line (l : List Char) : ∀ (fuel : Nat) (acc X : List Char),
    l.length + 1 + X.length < fuel → (∀ c ∈ l, isLineBoundary c = false) →
    splitlinesF fuel (l ++ '\n' :: X) acc =
      (acc.reverse ++ l) :: splitlinesF (fuel - (l.length + 1)) X [] := by
  induction l with
  | nil =>
    intro fuel acc X hf hb
    cases fuel with
    | zero => omega
    | succ f =>
      simp only [List.nil_append, splitlinesF]
      rw [if_neg (by decide), if_pos (by decide)]
      simp
  | cons c rest ih =>
    intro fuel acc X hf hb
    cases fuel with
    | zero => omega
    | succ f =>
      have hc : isLineBoundary c = false := hb c (by simp)
      have hcr : ¬ c = '\r' := by
        intro h
        rw [h] at hc
        simp [isLineBoundary] at hc
      simp only [List.cons_append, splitlinesF]
      rw [if_neg hcr, if_neg (by simp [hc])]
      simp only [List.append_eq]
      rw [ih f (c :: acc) X (by simp at hf ⊢; omega)
        (fun d hd => hb d (List.mem_cons_of_mem _ hd))]
      have hfe : f - (rest.length + 1) = f + 1 - ((c :: rest).length + 1) := by
        simp only [List.length_cons]
        omega
      rw [hfe]
      simp

theorem splitlinesF_boundary_free : ∀ (fuel : Nat) (x acc : List Char),
    (∀ c ∈ acc, isLineBoundary c = false) →
    ∀ l ∈ splitlinesF fuel x acc, ∀ c ∈ l, isLineBoundary c = false := by
  intro fuel
  induction fuel with
  | zero =>
    intro x acc hacc l hl
    simp [splitlinesF] at hl
  | succ f ih =>
    intro x acc hacc l hl
    cases x with
    | nil =>
      simp only [splitlinesF] at hl
      by_cases hacc0 : acc = []
      · rw [if_pos hacc0] at hl
        simp at hl
      · rw [if_neg hacc0] at hl
        simp at hl
        subst hl
        intro c hc
        exact hacc c (List.mem_reverse.mp hc)
    | cons a rest =>
      simp only [splitlinesF] at hl
      by_cases har : a = '\r'
      · rw [if_pos har] at hl
        rcases List.mem_cons.mp hl with h | h
        · subst h
          intro c hc
          exact hacc c (List.mem_reverse.mp hc)
        · exact ih _ [] (by simp) l h
      · rw [if_neg har] at hl
        by_cases hab : isLineBoundary a
        · rw [if_pos hab] at hl
          rcases List.mem_cons.mp hl with h | h
          · subst h
            intro c hc
            exact hacc c (List.mem_reverse.mp hc)
          · exact ih _ [] (by simp) l h
        · rw [if_neg hab] at hl
          apply ih rest (a :: acc) _ l hl
          intro c hc
          rcases List.mem_cons.mp hc with h | h
          · subst h
            simp at hab
            exact hab
          · exact hacc c h

theorem splitlines_joinSep : ∀ (ls : List (List Char)),
    (∀ l ∈ ls, l ≠ [] ∧ ∀ c ∈ l, isLineBoundary c = false) →
    ∀ fuel, (joinSep ['\n'] ls).length < fuel →
    splitlinesF fuel (joinSep ['\n'] ls) [] = ls := by
  intro ls
  induction ls with
  | nil =>
    intro h fuel hf
    cases fuel with
    | zero => omega
    | succ f => simp [joinSep, splitlinesF]
  | cons l ls ih =>
    intro h fuel hf
    cases ls with
    | nil =>
      have hl := h l (by simp)
      simp only [joinSep] at hf ⊢
      rw [slF_noboundary l fuel [] hf hl.2 (by simp [hl.1])]
      simp
    | cons l2 rest =>
      have hl := h l (by simp)
      simp only [joinSep] at hf ⊢
      rw [List.append_assoc, List.singleton_append] at hf ⊢
      have hlen : l.length + 1 + (joinSep ['\n'] (l2 :: rest)).length < fuel := by
        simp at hf
        omega
      rw [slF_cons_line l fuel [] _ hlen hl.2]
      rw [ih (fun d hd => h d (List.mem_cons_of_mem _ hd)) (fuel - (l.length + 1))
        (by simp at hf; omega)]
      simp

theorem parse_links_elem (t : String) (l : String) (h : l ∈ parse_links t) :
    l ≠ "" ∧ pyStrip l = l ∧ ∀ c ∈ l.data, isLineBoundary c = false := by
  simp only [parse_links, List.mem_map] at h
  obtain ⟨x, hx, hxl⟩ := h
  rw [List.mem_filter] at hx
  obtain ⟨hx1, hx2⟩ := hx
  simp at hx2
  subst hxl
  refine ⟨hx2, pyStrip_idem x, ?_⟩
  simp only [pySplitlines, List.mem_map] at hx1
  obtain ⟨xl, hxl2, hmk⟩ := hx1
  have hbf := splitlinesF_boundary_free _ t.data [] (by simp) xl hxl2
  intro c hc
  have hcx : c ∈ x.data := mem_pyStripChars x.data c hc
  rw [← hmk] at hcx
  exact hbf c hcx

theorem parse_links_join (ls : List String)
    (h : ∀ l ∈ ls, l ≠ "" ∧ pyStrip l = l ∧ ∀ c ∈ l.data, isLineBoundary c = false) :
    parse_links (pyJoin "\n" ls) = ls := by
  have hdata : ("\n" : String).data = ['\n'] := rfl
  simp only [parse_links, pySplitlines, pyJoin, hdata]
  rw [splitlines_joinSep (ls.map String.data) ?cond _ (by omega)]
  case cond =>
    intro d hd
    rw [List.mem_map] at hd
    obtain ⟨l, hl, hdl⟩ := hd
    subst hdl
    constructor
    · intro hnil
      apply (h l hl).1
      rw [← stringMk_data l, hnil]
    · exact (h l hl).2.2
  rw [List.map_map]
  have hmk : ls.map (String.mk ∘ String.data) = ls := by
    have h2 := List.map_congr_left
      (fun l _ => stringMk_data l : ∀ l ∈ ls, (String.mk ∘ String.data) l = id l)
    show List.map (fun l => String.mk l.data) ls = ls
    rw [h2]
    simp
  rw [hmk]
  have hfil : ls.filter (fun l => !(pyStrip l == "")) = ls := by
    rw [List.filter_eq_self]
    intro l hl
    simp [(h l hl).2.1, (h l hl).1]
  rw [hfil]
  have h3 := List.map_congr_left
    (fun l hl => (h l hl).2.1 : ∀ l ∈ ls, pyStrip l = id l)
  rw [h3]
  simp

/-- C9: link parsing is idempotent — for every input text, joining the
parsed link sequence with newlines and parsing it again yields exactly
the same ordered sequence as the first parse. -/
theorem C9_parse_links_idempotent (t : String) :
    parse_links (pyJoin "\n" (parse_links t)) = parse_links t :=
  parse_links_join (parse_links t) (fun l hl => parse_links_elem t l hl)

/-! ## Calendar dates: datetime.date with fromisoformat/isoformat

date.fromisoformat is modelled in its documented strict form, the
inverse of isoformat: exactly "YYYY-MM-DD" with a valid proleptic
Gregorian calendar date (newer interpreters additionally accept
compact and week-date spellings; the pages only produce and consume
the dashed form). -/

def isLeapYear (y : Nat) : Bool :=
  (y % 4 = 0 && !(y % 100 = 0)) || y % 400 = 0

def daysInMonth (y m : Nat) : Nat :=
  if m = 2 then (if isLeapYear y then 29 else 28)
  else if m = 4 || m = 6 || m = 9 || m = 11 then 30
  else 31

structure PyDate where
  year : Nat
  month : Nat
  day : Nat
deriving DecidableEq

def PyDate.valid (d : PyDate) : Bool :=
  1 ≤ d.year && d.year ≤ 9999 && 1 ≤ d.month && d.month ≤ 12 &&
  1 ≤ d.day && d.day ≤ daysInMonth d.year d.month

/-- Two decimal digits, zero padded. -/
def pad2 (n : Nat) : List Char :=
  [Char.ofNat (48 + n / 10 % 10), Char.ofNat (48 + n % 10)]

/-- Four decimal digits, zero padded. -/
def pad4 (n : Nat) : List Char :=
  [Char.ofNat (48 + n / 1000 % 10), Char.ofNat (48 + n / 100 % 10),
   Char.ofNat (48 + n / 10 % 10), Char.ofNat (48 + n % 10)]

/-- date.isoformat(): "YYYY-MM-DD". -/
def PyDate.isoformat (d : PyDate) : String :=
  String.mk (pad4 d.year ++ '-' :: (pad2 d.month ++ '-' :: pad2 d.day))

/-- Decimal digit value. -/
def decVal (c : Char) : Option Nat :=
  if isDigit c then some (c.toNat - 48) else none

/-- date.fromisoformat(s): parse "YYYY-MM-DD", rejecting anything else
with ValueError (modelled as none). -/
def date_fromisoformat (s : String) : Option PyDate :=
  match s.data with
  | [y1, y2, y3, y4, '-', m1, m2, '-', d1, d2] =>
    (match decVal y1, decVal y2, decVal y3, decVal y4,
           decVal m1, decVal m2, decVal d1, decVal d2 with
    | some a, some b, some c, some d, some e, some f, some g, some h =>
      let dt : PyDate := ⟨a * 1000 + b * 100 + c * 10 + d, e * 10 + f, g * 10 + h⟩
      if dt.valid then some dt else none
    | _, _, _, _, _, _, _, _ => none)
  | _ => none

example : date_fromisoformat "2024-03-01" = some ⟨2024, 3, 1⟩ := by decide
example : date_fromisoformat "not-a-date" = none := by decide
example : date_fromisoformat "2023-02-29" = none := by decide
example : date_fromisoformat "2024-02-29" = some ⟨2024, 2, 29⟩ := by decide
example : PyDate.isoformat ⟨2024, 3, 1⟩ = "2024-03-01" := by decide

/-! ## The release record schema and its JSON image

A ReleaseRecord mirrors the form_data dictionary assembled by the
generator page: release_date and contact strings plus an ordered
mapping from service name to per-service entry, each entry carrying
the ten fields written at lines 198-209 of the page in source order. -/

structure ServiceEntry where
  config_only : Bool
  risk_level : String
  benefit_level : String
  version : String
  known_issues : String
  change_description : String
  pr_links : List String
  design_links : List String
  code_quality_links : List String
  additional_links : List String
deriving DecidableEq

structure ReleaseRecord where
  release_date : String
  contact : String
  services : List (String × ServiceEntry)
deriving DecidableEq

/-- JSON image of one per-service entry, fields in the order the page
inserts them into form_data["services"][svc]. -/
def entryToJson (e : ServiceEntry) : Json :=
  Json.obj
    [("config_only", Json.bool e.config_only),
     ("risk_level", Json.str e.risk_level),
     ("benefit_level", Json.str e.benefit_level),
     ("version", Json.str e.version),
     ("known_issues", Json.str e.known_issues),
     ("change_description", Json.str e.change_description),
     ("pr_links", Json.arr (e.pr_links.map Json.str)),
     ("design_links", Json.arr (e.design_links.map Json.str)),
     ("code_quality_links", Json.arr (e.code_quality_links.map Json.str)),
     ("additional_links", Json.arr (e.additional_links.map Json.str))]

/-- JSON image of a full record, fields in form_data insertion order. -/
def recordToJson (r : ReleaseRecord) : Json :=
  Json.obj
    [("release_date", Json.str r.release_date),
     ("contact", Json.str r.contact),
     ("services", Json.obj (r.services.map (fun p => (p.1, entryToJson p.2))))]

/-- A trimmed, non-blank link line. -/
def linkOk (l : String) : Bool :=
  !(l == "") && (pyStrip l == l)

/-- A valid severity enum value. -/
def levelOk (s : String) : Bool :=
  s == "Low" || s == "Medium" || s == "High"

def entryValid (e : ServiceEntry) : Bool :=
  levelOk e.risk_level && levelOk e.benefit_level &&
  (e.pr_links ++ e.design_links ++ e.code_quality_links ++ e.additional_links).all linkOk

/-- Schema validity per section 3: enum fields hold valid levels and
every link list element is a trimmed non-blank string. -/
def recordValid (r : ReleaseRecord) : Bool :=
  r.services.all (fun p => entryValid p.2)

theorem numFreeList_mapStr (ls : List String) : numFreeList (ls.map Json.str) = true := by
  induction ls with
  | nil => rfl
  | cons a rest ih => simp [numFreeList, numFree, ih]

theorem entryToJson_numFree (e : ServiceEntry) : numFree (entryToJson e) = true := by
  simp [entryToJson, numFree, numFreeMembers, numFreeList_mapStr]

theorem servicesMembers_numFree : ∀ (svcs : List (String × ServiceEntry)),
    numFreeMembers (svcs.map (fun p => (p.1, entryToJson p.2))) = true := by
  intro svcs
  induction svcs with
  | nil => rfl
  | cons p rest ih => simp [numFreeMembers, entryToJson_numFree, ih]

theorem recordToJson_numFree (r : ReleaseRecord) : numFree (recordToJson r) = true := by
  simp [recordToJson, numFree, numFreeMembers, servicesMembers_numFree]

theorem mapStr_inj : ∀ (l1 l2 : List String), l1.map Json.str = l2.map Json.str → l1 = l2 := by
  intro l1
  induction l1 with
  | nil =>
    intro l2 h
    cases l2 with
    | nil => rfl
    | cons b t => simp at h
  | cons a t ih =>
    intro l2 h
    cases l2 with
    | nil => simp at h
    | cons b t2 =>
      simp at h
      rw [h.1, ih t2 h.2]

theorem entryToJson_inj (e1 e2 : ServiceEntry) (h : entryToJson e1 = entryToJson e2) :
    e1 = e2 := by
  cases e1
  cases e2
  simp only [entryToJson, Json.obj.injEq, List.cons.injEq, Prod.mk.injEq, Json.bool.injEq,
    Json.str.injEq, Json.arr.injEq, true_and, and_true] at h
  obtain ⟨h1, h2, h3, h4, h5, h6, h7, h8, h9, h10⟩ := h
  simp only [ServiceEntry.mk.injEq]
  exact ⟨h1, h2, h3, h4, h5, h6, mapStr_inj _ _ h7, mapStr_inj _ _ h8,
    mapStr_inj _ _ h9, mapStr_inj _ _ h10⟩

theorem servicesMap_inj : ∀ (s1 s2 : List (String × ServiceEntry)),
    s1.map (fun p => (p.1, entryToJson p.2)) = s2.map (fun p => (p.1, entryToJson p.2)) →
    s1 = s2 := by
  intro s1
  induction s1 with
  | nil =>
    intro s2 h
    cases s2 with
    | nil => rfl
    | cons b t => simp at h
  | cons a t ih =>
    intro s2 h
    cases s2 with
    | nil => simp at h
    | cons b t2 =>
      simp only [List.map_cons, List.cons.injEq, Prod.mk.injEq] at h
      obtain ⟨⟨hk, hv⟩, ht⟩ := h
      rw [ih t2 ht]
      have : a = b := Prod.ext hk (entryToJson_inj _ _ hv)
      rw [this]

theorem recordToJson_inj (r1 r2 : ReleaseRecord) (h : recordToJson r1 = recordToJson r2) :
    r1 = r2 := by
  cases r1
  cases r2
  simp only [recordToJson, Json.obj.injEq, List.cons.injEq, Prod.mk.injEq, Json.str.injEq,
    true_and, and_true] at h
  obtain ⟨h1, h2, h3⟩ := h
  simp only [ReleaseRecord.mk.injEq]
  exact ⟨h1, h2, servicesMap_inj _ _ h3⟩

/-- C1: for every ReleaseRecord r constructed via the schema (valid
enum values, string text fields, trimmed non-blank link lists),
decoding the encoding of r — JSON serialization then base64 on the way
out, base64 decoding then JSON parsing on the way back — recovers
exactly the JSON image of r, and that image determines r
field-for-field, so decode(encode(r)) yields a record equal to r. -/
theorem C1_codec_round_trip (r : ReleaseRecord) (h : recordValid r = true) :
    decode_b64_to_json (export_b64 (recordToJson r)) = some (recordToJson r) ∧
    ∀ r2 : ReleaseRecord, recordToJson r2 = recordToJson r → r2 = r :=
  ⟨decode_b64_to_json_export (recordToJson r) (recordToJson_numFree r),
   fun r2 h2 => recordToJson_inj r2 r h2⟩

def c1Record : ReleaseRecord :=
  ⟨"2024-03-01", "Alice",
   [("Billing", ⟨true, "High", "Low", "1.2.0", "", "fix rounding",
     ["https://x/1", "https://x/2"], [], [], []⟩)]⟩

theorem C1_codec_round_trip_witness :
    recordValid c1Record = true ∧
    (decode_b64_to_json (export_b64 (recordToJson c1Record)) = some (recordToJson c1Record) ∧
     ∀ r2 : ReleaseRecord, recordToJson r2 = recordToJson c1Record → r2 = c1Record) :=
  ⟨by decide, C1_codec_round_trip c1Record (by decide)⟩

/-! ## Session state and the deferred-load (rehydration) protocol

Streamlit's session_state is a string-keyed dictionary of Python
values; widgets are modelled as pass-through readers: a widget with
key k evaluates to session_state[k] when the key is present and to
its own default otherwise (date_input: the seeded date; selectbox:
the first option; multiselect: the empty selection; checkbox: False;
text widgets: ""), and form_data is assembled from those values.

A state is an association list where a later write shadows earlier
entries, so sset prepends and sget takes the first match. -/

inductive PyVal where
  | pdate (d : PyDate) : PyVal
  | pjson (j : Json) : PyVal
  | pstr (s : String) : PyVal
  | pstrList (ls : List String) : PyVal
deriving DecidableEq

abbrev SState := List (String × PyVal)

def sget : SState → String → Option PyVal
  | [], _ => none
  | (k, v) :: rest, key => if k = key then some v else sget rest key

def sset (st : SState) (k : String) (v : PyVal) : SState :=
  (k, v) :: st

/-- dict.get(k, default). -/
def jsonGetD (ms : List (String × Json)) (k : String) (dflt : Json) : Json :=
  match jsonLookup ms k with
  | some v => v
  | none => dflt

/-- Elements of a JSON array when they are all strings. -/
def strItems : List Json → Option (List String)
  | [] => some []
  | Json.str s :: rest => (strItems rest).map (fun t => s :: t)
  | _ => none

/-- Python "\n".join(x) on a decoded JSON value: joins a list of
strings, the characters of a string, or the keys of an object;
anything else raises TypeError (none). -/
def pyJoinNl : Json → Option String
  | Json.arr xs => (strItems xs).map (fun ls => pyJoin "\n" ls)
  | Json.str s => some (pyJoin "\n" (s.data.map (fun c => String.mk [c])))
  | Json.obj ms => some (pyJoin "\n" (ms.map Prod.fst))
  | _ => none

/-- One iteration of the per-service loop of the pending_load block
(generator page lines 64-74; same code in app.py): ten slot writes
keyed f"{svc}_<field>" in source order, each read with dict.get and
its default; link lists are joined with newlines before storage.  A
join that raises (non-joinable value) aborts the run (none). -/
def hydrateSvc (st : SState) (svc : String) (details : Json) : Option SState :=
  match details with
  | Json.obj dm =>
    let st1 := sset st (svc ++ "_config_only")
      (PyVal.pjson (jsonGetD dm "config_only" (Json.bool false)))
    let st2 := sset st1 (svc ++ "_risk_level")
      (PyVal.pjson (jsonGetD dm "risk_level" (Json.str "Low")))
    let st3 := sset st2 (svc ++ "_benefit_level")
      (PyVal.pjson (jsonGetD dm "benefit_level" (Json.str "Low")))
    let st4 := sset st3 (svc ++ "_version")
      (PyVal.pjson (jsonGetD dm "version" (Json.str "")))
    let st5 := sset st4 (svc ++ "_known_issues")
      (PyVal.pjson (jsonGetD dm "known_issues" (Json.str "")))
    match pyJoinNl (jsonGetD dm "pr_links" (Json.arr [])) with
    | none => none
    | some prs =>
      let st6 := sset st5 (svc ++ "_pr_links") (PyVal.pstr prs)
      let st7 := sset st6 (svc ++ "_change_description")
        (PyVal.pjson (jsonGetD dm "change_description" (Json.str "")))
      match pyJoinNl (jsonGetD dm "design_links" (Json.arr [])) with
      | none => none
      | some dls =>
        let st8 := sset st7 (svc ++ "_design_links") (PyVal.pstr dls)
        match pyJoinNl (jsonGetD dm "code_quality_links" (Json.arr [])) with
        | none => none
        | some cqs =>
          let st9 := sset st8 (svc ++ "_code_quality_links") (PyVal.pstr cqs)
          match pyJoinNl (jsonGetD dm "additional_links" (Json.arr [])) with
          | none => none
          | some als =>
            some (sset st9 (svc ++ "_additional_links") (PyVal.pstr als))
  | _ => none

def hydrateSvcs (st : SState) : List (String × Json) → Option SState
  | [] => some st
  | (svc, details) :: rest =>
    match hydrateSvc st svc details with
    | none => none
    | some st2 => hydrateSvcs st2 rest

/-- The pending_load unpack (generator page lines 48-74, app.py lines
43-57), run on the decoded JSON before any widget is constructed:
release_date is parsed with date.fromisoformat inside try/except
(an unparseable or non-string value is skipped), contact is copied
when present, selected_services is unconditionally set to the keys of
services (default empty object), and each service entry populates its
ten per-service slots.  A non-object payload or a non-object service
entry crashes the unpack (none). -/
def hydrate (loaded : Json) (st : SState) : Option SState :=
  match loaded with
  | Json.obj members =>
    let st1 :=
      match jsonLookup members "release_date" with
      | some (Json.str s) =>
        (match date_fromisoformat s with
        | some d => sset st "release_date" (PyVal.pdate d)
        | none => st)
      | some _ => st
      | none => st
    let st2 :=
      match jsonLookup members "contact" with
      | some v => sset st1 "contact" (PyVal.pjson v)
      | none => st1
    match jsonGetD members "services" (Json.obj []) with
    | Json.obj svcs =>
      hydrateSvcs (sset st2 "selected_services" (PyVal.pstrList (svcs.map Prod.fst))) svcs
    | _ => none
  | _ => none

/-- A text widget's value: the session value when present (it must be
a Python string), else "". -/
def readStr (st : SState) (k : String) : Option String :=
  match sget st k with
  | some (PyVal.pjson (Json.str s)) => some s
  | some (PyVal.pstr s) => some s
  | none => some ""
  | some _ => none

/-- A checkbox's value: the session value when present (it must be a
Python bool), else False. -/
def readBool (st : SState) (k : String) : Option Bool :=
  match sget st k with
  | some (PyVal.pjson (Json.bool b)) => some b
  | none => some false
  | some _ => none

/-- A selectbox's value: the session value when present (a string),
else the given first option. -/
def readSel (st : SState) (k : String) (dflt : String) : Option String :=
  match sget st k with
  | some (PyVal.pjson (Json.str s)) => some s
  | none => some dflt
  | some _ => none

/-- One per-service block of the form (generator page lines 140-209):
the ten widgets read their session slots, and the entry is inserted
into form_data["services"][svc] with its fields in source order; the
four link textareas run through _parse_links. -/
def buildEntry (st : SState) (svc : String) : Option Json := do
  let config_only ← readBool st (svc ++ "_config_only")
  let change_description ← readStr st (svc ++ "_change_description")
  let risk_level ← readSel st (svc ++ "_risk_level") "Low"
  let benefit_level ← readSel st (svc ++ "_benefit_level") "Low"
  let version ← readStr st (svc ++ "_version")
  let known_issues ← readStr st (svc ++ "_known_issues")
  let pr_links ← readStr st (svc ++ "_pr_links")
  let design_links ← readStr st (svc ++ "_design_links")
  let code_quality_links ← readStr st (svc ++ "_code_quality_links")
  let additional_links ← readStr st (svc ++ "_additional_links")
  pure (Json.obj
    [("config_only", Json.bool config_only),
     ("risk_level", Json.str risk_level),
     ("benefit_level", Json.str benefit_level),
     ("version", Json.str version),
     ("known_issues", Json.str known_issues),
     ("change_description", Json.str change_description),
     ("pr_links", Json.arr ((parse_links pr_links).map Json.str)),
     ("design_links", Json.arr ((parse_links design_links).map Json.str)),
     ("code_quality_links", Json.arr ((parse_links code_quality_links).map Json.str)),
     ("additional_links", Json.arr ((parse_links additional_links).map Json.str))])

def buildServices (st : SState) : List String → Option (List (String × Json))
  | [] => some []
  | svc :: rest => do
    let e ← buildEntry st svc
    let tail ← buildServices st rest
    pure ((svc, e) :: tail)

/-- The form_data dictionary of one render pass (generator page lines
107-209) under the pass-through widget model: the date slot is seeded
with today when absent, the contact selectbox defaults to the first
configured contact (None when there are none), the multiselect
defaults to no services, and each selected service contributes one
entry.  The configured service list (the multiselect's options) does
not constrain the value — selections carried in session state are
rendered as they are. -/
def buildFormData (contacts : List String) (services : List String) (today : PyDate)
    (st : SState) : Option Json :=
  let st0 :=
    match sget st "release_date" with
    | none => sset st "release_date" (PyVal.pdate today)
    | some _ => st
  match sget st0 "release_date" with
  | some (PyVal.pdate rd) =>
    let contactVal : Option Json :=
      match sget st0 "contact" with
      | some (PyVal.pjson j) => some j
      | some _ => none
      | none =>
        (match contacts with
        | [] => some Json.null
        | c :: _ => some (Json.str c))
    match contactVal with
    | none => none
    | some contact =>
      let sel : Option (List String) :=
        match sget st0 "selected_services" with
        | some (PyVal.pstrList ls) => some ls
        | some _ => none
        | none => some []
      match sel with
      | none => none
      | some selected =>
        match buildServices st0 selected with
        | none => none
        | some svcMembers =>
          some (Json.obj
            [("release_date", Json.str rd.isoformat),
             ("contact", contact),
             ("services", Json.obj svcMembers)])
  | _ => none

/-! ### Slot keys -/

/-- The ten per-service slot key suffixes. -/
def slotSuffixes : List String :=
  ["_config_only", "_risk_level", "_benefit_level", "_version", "_known_issues",
   "_pr_links", "_change_description", "_design_links", "_code_quality_links",
   "_additional_links"]

theorem slotSuffixes_nosuffix :
    ∀ s1 ∈ slotSuffixes, ∀ s2 ∈ slotSuffixes, s1 ≠ s2 → ¬ s1.data <:+ s2.data := by
  decide

theorem appendKey_ne (a suf fixed : String) (hns : ¬ suf.data <:+ fixed.data) :
    a ++ suf ≠ fixed := by
  intro h
  exact hns ⟨a.data, congrArg String.data h⟩

theorem string_data_inj (a b : String) (h : a.data = b.data) : a = b := by
  cases a
  cases b
  exact congrArg String.mk h

theorem slotKey_inj (a b suf1 suf2 : String) (h1 : suf1 ∈ slotSuffixes)
    (h2 : suf2 ∈ slotSuffixes) (heq : a ++ suf1 = b ++ suf2) : suf1 = suf2 ∧ a = b := by
  have hd : a.data ++ suf1.data = b.data ++ suf2.data := congrArg String.data heq
  by_cases hss : suf1 = suf2
  · subst hss
    exact ⟨rfl, string_data_inj a b (List.append_inj_left' hd rfl)⟩
  · exfalso
    have hsfx1 : suf1.data <:+ b.data ++ suf2.data := ⟨a.data, hd⟩
    have hsfx2 : suf2.data <:+ b.data ++ suf2.data := ⟨b.data, rfl⟩
    rcases Nat.le_total suf1.data.length suf2.data.length with hle | hle
    · exact slotSuffixes_nosuffix suf1 h1 suf2 h2 hss
        (List.suffix_of_suffix_length_le hsfx1 hsfx2 hle)
    · exact slotSuffixes_nosuffix suf2 h2 suf1 h1 (fun hh => hss hh.symm)
        (List.suffix_of_suffix_length_le hsfx2 hsfx1 hle)

theorem sget_cons (k k2 : String) (v : PyVal) (st : SState) :
    sget ((k, v) :: st) k2 = if k = k2 then some v else sget st k2 := rfl

/-- The successful run of hydrateSvc on an object, as the explicit
list of its ten slot writes (most recent first). -/
theorem hydrateSvc_eq (st : SState) (svc : String) (dm : List (String × Json))
    (prs dls cqs als : String)
    (hpr : pyJoinNl (jsonGetD dm "pr_links" (Json.arr [])) = some prs)
    (hdl : pyJoinNl (jsonGetD dm "design_links" (Json.arr [])) = some dls)
    (hcq : pyJoinNl (jsonGetD dm "code_quality_links" (Json.arr [])) = some cqs)
    (hal : pyJoinNl (jsonGetD dm "additional_links" (Json.arr [])) = some als) :
    hydrateSvc st svc (Json.obj dm) = some (
      (svc ++ "_additional_links", PyVal.pstr als) ::
      (svc ++ "_code_quality_links", PyVal.pstr cqs) ::
      (svc ++ "_design_links", PyVal.pstr dls) ::
      (svc ++ "_change_description",
        PyVal.pjson (jsonGetD dm "change_description" (Json.str ""))) ::
      (svc ++ "_pr_links", PyVal.pstr prs) ::
      (svc ++ "_known_issues", PyVal.pjson (jsonGetD dm "known_issues" (Json.str ""))) ::
      (svc ++ "_version", PyVal.pjson (jsonGetD dm "version" (Json.str ""))) ::
      (svc ++ "_benefit_level", PyVal.pjson (jsonGetD dm "benefit_level" (Json.str "Low"))) ::
      (svc ++ "_risk_level", PyVal.pjson (jsonGetD dm "risk_level" (Json.str "Low"))) ::
      (svc ++ "_config_only", PyVal.pjson (jsonGetD dm "config_only" (Json.bool false))) :: st) := by
  simp [hydrateSvc, sset, hpr, hdl, hcq, hal]

/-- A successful hydrateSvc run exists exactly when the four link
joins succeed; this extracts them. -/
theorem hydrateSvc_obj_joins (st : SState) (svc : String) (dm : List (String × Json))
    (st2 : SState) (h : hydrateSvc st svc (Json.obj dm) = some st2) :
    ∃ prs dls cqs als,
      pyJoinNl (jsonGetD dm "pr_links" (Json.arr [])) = some prs ∧
      pyJoinNl (jsonGetD dm "design_links" (Json.arr [])) = some dls ∧
      pyJoinNl (jsonGetD dm "code_quality_links" (Json.arr [])) = some cqs ∧
      pyJoinNl (jsonGetD dm "additional_links" (Json.arr [])) = some als := by
  cases hpr : pyJoinNl (jsonGetD dm "pr_links" (Json.arr [])) with
  | none => simp [hydrateSvc, hpr] at h
  | some prs =>
    cases hdl : pyJoinNl (jsonGetD dm "design_links" (Json.arr [])) with
    | none => simp [hydrateSvc, hpr, hdl] at h
    | some dls =>
      cases hcq : pyJoinNl (jsonGetD dm "code_quality_links" (Json.arr [])) with
      | none => simp [hydrateSvc, hpr, hdl, hcq] at h
      | some cqs =>
        cases hal : pyJoinNl (jsonGetD dm "additional_links" (Json.arr [])) with
        | none => simp [hydrateSvc, hpr, hdl, hcq, hal] at h
        | some als => exact ⟨prs, dls, cqs, als, rfl, rfl, rfl, rfl⟩

theorem sget_slot_cons (svc s1 s2 : String) (h1 : s1 ∈ slotSuffixes) (h2 : s2 ∈ slotSuffixes)
    (v : PyVal) (st : SState) :
    sget ((svc ++ s1, v) :: st) (svc ++ s2) = if s1 = s2 then some v else sget st (svc ++ s2) := by
  rw [sget_cons]
  by_cases hs : s1 = s2
  · rw [if_pos hs, if_pos (by rw [hs])]
  · rw [if_neg hs, if_neg (fun heq => hs (slotKey_inj svc svc s1 s2 h1 h2 heq).1)]

theorem hydrateSvc_slots (st : SState) (svc : String) (dm : List (String × Json))
    (st2 : SState) (h : hydrateSvc st svc (Json.obj dm) = some st2) :
    sget st2 (svc ++ "_config_only") = some (PyVal.pjson (jsonGetD dm "config_only" (Json.bool false))) ∧
    sget st2 (svc ++ "_risk_level") = some (PyVal.pjson (jsonGetD dm "risk_level" (Json.str "Low"))) ∧
    sget st2 (svc ++ "_benefit_level") = some (PyVal.pjson (jsonGetD dm "benefit_level" (Json.str "Low"))) ∧
    sget st2 (svc ++ "_version") = some (PyVal.pjson (jsonGetD dm "version" (Json.str ""))) ∧
    sget st2 (svc ++ "_known_issues") = some (PyVal.pjson (jsonGetD dm "known_issues" (Json.str ""))) ∧
    sget st2 (svc ++ "_change_description") = some (PyVal.pjson (jsonGetD dm "change_description" (Json.str ""))) ∧
    sget st2 (svc ++ "_pr_links") = Option.map PyVal.pstr (pyJoinNl (jsonGetD dm "pr_links" (Json.arr []))) ∧
    sget st2 (svc ++ "_design_links") = Option.map PyVal.pstr (pyJoinNl (jsonGetD dm "design_links" (Json.arr []))) ∧
    sget st2 (svc ++ "_code_quality_links") = Option.map PyVal.pstr (pyJoinNl (jsonGetD dm "code_quality_links" (Json.arr []))) ∧
    sget st2 (svc ++ "_additional_links") = Option.map PyVal.pstr (pyJoinNl (jsonGetD dm "additional_links" (Json.arr []))) := by
  obtain ⟨prs, dls, cqs, als, hpr, hdl, hcq, hal⟩ := hydrateSvc_obj_joins st svc dm st2 h
  rw [hydrateSvc_eq st svc dm prs dls cqs als hpr hdl hcq hal, Option.some.injEq] at h
  subst h
  refine ⟨?_, ?_, ?_, ?_, ?_, ?_, ?_, ?_, ?_, ?_⟩
  rw [sget_slot_cons svc "_additional_links" "_config_only" (by decide) (by decide)]
  rw [if_neg (by decide)]
  rw [sget_slot_cons svc "_code_quality_links" "_config_only" (by decide) (by decide)]
  rw [if_neg (by decide)]
  rw [sget_slot_cons svc "_design_links" "_config_only" (by decide) (by decide)]
  rw [if_neg (by decide)]
  rw [sget_slot_cons svc "_change_description" "_config_only" (by decide) (by decide)]
  rw [if_neg (by decide)]
  rw [sget_slot_cons svc "_pr_links" "_config_only" (by decide) (by decide)]
  rw [if_neg (by decide)]
  rw [sget_slot_cons svc "_known_issues" "_config_only" (by decide) (by decide)]
  rw [if_neg (by decide)]
  rw [sget_slot_cons svc "_version" "_config_only" (by decide) (by decide)]
  rw [if_neg (by decide)]
  rw [sget_slot_cons svc "_benefit_level" "_config_only" (by decide) (by decide)]
  rw [if_neg (by decide)]
  rw [sget_slot_cons svc "_risk_level" "_config_only" (by decide) (by decide)]
  rw [if_neg (by decide)]
  rw [sget_slot_cons svc "_config_only" "_config_only" (by decide) (by decide)]
  rw [if_pos rfl]
  rw [sget_slot_cons svc "_additional_links" "_risk_level" (by decide) (by decide)]
  rw [if_neg (by decide)]
  rw [sget_slot_cons svc "_code_quality_links" "_risk_level" (by decide) (by decide)]
  rw [if_neg (by decide)]
  rw [sget_slot_cons svc "_design_links" "_risk_level" (by decide) (by decide)]
  rw [if_neg (by decide)]
  rw [sget_slot_cons svc "_change_description" "_risk_level" (by decide) (by decide)]
  rw [if_neg (by decide)]
  rw [sget_slot_cons svc "_pr_links" "_risk_level" (by decide) (by decide)]
  rw [if_neg (by decide)]
  rw [sget_slot_cons svc "_known_issues" "_risk_level" (by decide) (by decide)]
  rw [if_neg (by decide)]
  rw [sget_slot_cons svc "_version" "_risk_level" (by decide) (by decide)]
  rw [if_neg (by decide)]
  rw [sget_slot_cons svc "_benefit_level" "_risk_level" (by decide) (by decide)]
  rw [if_neg (by decide)]
  rw [sget_slot_cons svc "_risk_level" "_risk_level" (by decide) (by decide)]
  rw [if_pos rfl]
  rw [sget_slot_cons svc "_additional_links" "_benefit_level" (by decide) (by decide)]
  rw [if_neg (by decide)]
  rw [sget_slot_cons svc "_code_quality_links" "_benefit_level" (by decide) (by decide)]
  rw [if_neg (by decide)]
  rw [sget_slot_cons svc "_design_links" "_benefit_level" (by decide) (by decide)]
  rw [if_neg (by decide)]
  rw [sget_slot_cons svc "_change_description" "_benefit_level" (by decide) (by decide)]
  rw [if_neg (by decide)]
  rw [sget_slot_cons svc "_pr_links" "_benefit_level" (by decide) (by decide)]
  rw [if_neg (by decide)]
  rw [sget_slot_cons svc "_known_issues" "_benefit_level" (by decide) (by decide)]
  rw [if_neg (by decide)]
  rw [sget_slot_cons svc "_version" "_benefit_level" (by decide) (by decide)]
  rw [if_neg (by decide)]
  rw [sget_slot_cons svc "_benefit_level" "_benefit_level" (by decide) (by decide)]
  rw [if_pos rfl]
  rw [sget_slot_cons svc "_additional_links" "_version" (by decide) (by decide)]
  rw [if_neg (by decide)]
  rw [sget_slot_cons svc "_code_quality_links" "_version" (by decide) (by decide)]
  rw [if_neg (by decide)]
  rw [sget_slot_cons svc "_design_links" "_version" (by decide) (by decide)]
  rw [if_neg (by decide)]
  rw [sget_slot_cons svc "_change_description" "_version" (by decide) (by decide)]
  rw [if_neg (by decide)]
  rw [sget_slot_cons svc "_pr_links" "_version" (by decide) (by decide)]
  rw [if_neg (by decide)]
  rw [sget_slot_cons svc "_known_issues" "_version" (by decide) (by decide)]
  rw [if_neg (by decide)]
  rw [sget_slot_cons svc "_version" "_version" (by decide) (by decide)]
  rw [if_pos rfl]
  rw [sget_slot_cons svc "_additional_links" "_known_issues" (by decide) (by decide)]
  rw [if_neg (by decide)]
  rw [sget_slot_cons svc "_code_quality_links" "_known_issues" (by decide) (by decide)]
  rw [if_neg (by decide)]
  rw [sget_slot_cons svc "_design_links" "_known_issues" (by decide) (by decide)]
  rw [if_neg (by decide)]
  rw [sget_slot_cons svc "_change_description" "_known_issues" (by decide) (by decide)]
  rw [if_neg (by decide)]
  rw [sget_slot_cons svc "_pr_links" "_known_issues" (by decide) (by decide)]
  rw [if_neg (by decide)]
  rw [sget_slot_cons svc "_known_issues" "_known_issues" (by decide) (by decide)]
  rw [if_pos rfl]
  rw [sget_slot_cons svc "_additional_links" "_change_description" (by decide) (by decide)]
  rw [if_neg (by decide)]
  rw [sget_slot_cons svc "_code_quality_links" "_change_description" (by decide) (by decide)]
  rw [if_neg (by decide)]
  rw [sget_slot_cons svc "_design_links" "_change_description" (by decide) (by decide)]
  rw [if_neg (by decide)]
  rw [sget_slot_cons svc "_change_description" "_change_description" (by decide) (by decide)]
  rw [if_pos rfl]
  rw [sget_slot_cons svc "_additional_links" "_pr_links" (by decide) (by decide)]
  rw [if_neg (by decide)]
  rw [sget_slot_cons svc "_code_quality_links" "_pr_links" (by decide) (by decide)]
  rw [if_neg (by decide)]
  rw [sget_slot_cons svc "_design_links" "_pr_links" (by decide) (by decide)]
  rw [if_neg (by decide)]
  rw [sget_slot_cons svc "_change_description" "_pr_links" (by decide) (by decide)]
  rw [if_neg (by decide)]
  rw [sget_slot_cons svc "_pr_links" "_pr_links" (by decide) (by decide)]
  rw [if_pos rfl]
  rw [hpr]
  rfl
  rw [sget_slot_cons svc "_additional_links" "_design_links" (by decide) (by decide)]
  rw [if_neg (by decide)]
  rw [sget_slot_cons svc "_code_quality_links" "_design_links" (by decide) (by decide)]
  rw [if_neg (by decide)]
  rw [sget_slot_cons svc "_design_links" "_design_links" (by decide) (by decide)]
  rw [if_pos rfl]
  rw [hdl]
  rfl
  rw [sget_slot_cons svc "_additional_links" "_code_quality_links" (by decide) (by decide)]
  rw [if_neg (by decide)]
  rw [sget_slot_cons svc "_code_quality_links" "_code_quality_links" (by decide) (by decide)]
  rw [if_pos rfl]
  rw [hcq]
  rfl
  rw [sget_slot_cons svc "_additional_links" "_additional_links" (by decide) (by decide)]
  rw [if_pos rfl]
  rw [hal]
  rfl

theorem sget_hydrateSvc_free (st : SState) (svc : String) (details : Json) (st2 : SState)
    (k : String) (h : hydrateSvc st svc details = some st2)
    (hk : ∀ suf ∈ slotSuffixes, ¬ suf.data <:+ k.data) :
    sget st2 k = sget st k := by
  cases details with
  | null => simp [hydrateSvc] at h
  | bool b => simp [hydrateSvc] at h
  | num t => simp [hydrateSvc] at h
  | str s => simp [hydrateSvc] at h
  | arr xs => simp [hydrateSvc] at h
  | obj dm =>
    obtain ⟨prs, dls, cqs, als, hpr, hdl, hcq, hal⟩ := hydrateSvc_obj_joins st svc dm st2 h
    rw [hydrateSvc_eq st svc dm prs dls cqs als hpr hdl hcq hal, Option.some.injEq] at h
    subst h
    rw [sget_cons, if_neg (appendKey_ne svc "_additional_links" k (hk "_additional_links" (by decide)))]
    rw [sget_cons, if_neg (appendKey_ne svc "_code_quality_links" k (hk "_code_quality_links" (by decide)))]
    rw [sget_cons, if_neg (appendKey_ne svc "_design_links" k (hk "_design_links" (by decide)))]
    rw [sget_cons, if_neg (appendKey_ne svc "_change_description" k (hk "_change_description" (by decide)))]
    rw [sget_cons, if_neg (appendKey_ne svc "_pr_links" k (hk "_pr_links" (by decide)))]
    rw [sget_cons, if_neg (appendKey_ne svc "_known_issues" k (hk "_known_issues" (by decide)))]
    rw [sget_cons, if_neg (appendKey_ne svc "_version" k (hk "_version" (by decide)))]
    rw [sget_cons, if_neg (appendKey_ne svc "_benefit_level" k (hk "_benefit_level" (by decide)))]
    rw [sget_cons, if_neg (appendKey_ne svc "_risk_level" k (hk "_risk_level" (by decide)))]
    rw [sget_cons, if_neg (appendKey_ne svc "_config_only" k (hk "_config_only" (by decide)))]

theorem sget_hydrateSvc_foreign (st : SState) (svc : String) (details : Json) (st2 : SState)
    (a suf : String) (h : hydrateSvc st svc details = some st2)
    (hsuf : suf ∈ slotSuffixes) (hne : a ≠ svc) :
    sget st2 (a ++ suf) = sget st (a ++ suf) := by
  cases details with
  | null => simp [hydrateSvc] at h
  | bool b => simp [hydrateSvc] at h
  | num t => simp [hydrateSvc] at h
  | str s => simp [hydrateSvc] at h
  | arr xs => simp [hydrateSvc] at h
  | obj dm =>
    obtain ⟨prs, dls, cqs, als, hpr, hdl, hcq, hal⟩ := hydrateSvc_obj_joins st svc dm st2 h
    rw [hydrateSvc_eq st svc dm prs dls cqs als hpr hdl hcq hal, Option.some.injEq] at h
    subst h
    rw [sget_cons, if_neg (fun heq => hne (slotKey_inj svc a "_additional_links" suf (by decide) hsuf heq).2.symm)]
    rw [sget_cons, if_neg (fun heq => hne (slotKey_inj svc a "_code_quality_links" suf (by decide) hsuf heq).2.symm)]
    rw [sget_cons, if_neg (fun heq => hne (slotKey_inj svc a "_design_links" suf (by decide) hsuf heq).2.symm)]
    rw [sget_cons, if_neg (fun heq => hne (slotKey_inj svc a "_change_description" suf (by decide) hsuf heq).2.symm)]
    rw [sget_cons, if_neg (fun heq => hne (slotKey_inj svc a "_pr_links" suf (by decide) hsuf heq).2.symm)]
    rw [sget_cons, if_neg (fun heq => hne (slotKey_inj svc a "_known_issues" suf (by decide) hsuf heq).2.symm)]
    rw [sget_cons, if_neg (fun heq => hne (slotKey_inj svc a "_version" suf (by decide) hsuf heq).2.symm)]
    rw [sget_cons, if_neg (fun heq => hne (slotKey_inj svc a "_benefit_level" suf (by decide) hsuf heq).2.symm)]
    rw [sget_cons, if_neg (fun heq => hne (slotKey_inj svc a "_risk_level" suf (by decide) hsuf heq).2.symm)]
    rw [sget_cons, if_neg (fun heq => hne (slotKey_inj svc a "_config_only" suf (by decide) hsuf heq).2.symm)]

theorem strItems_mapStr : ∀ ls : List String, strItems (ls.map Json.str) = some ls := by
  intro ls
  induction ls with
  | nil => rfl
  | cons a rest ih => simp [strItems, ih]

theorem pyJoinNl_mapStr (ls : List String) :
    pyJoinNl (Json.arr (ls.map Json.str)) = some (pyJoin "\n" ls) := by
  simp [pyJoinNl, strItems_mapStr]

/-- The member list of entryToJson. -/
def entryMembers (e : ServiceEntry) : List (String × Json) :=
  [("config_only", Json.bool e.config_only),
   ("risk_level", Json.str e.risk_level),
   ("benefit_level", Json.str e.benefit_level),
   ("version", Json.str e.version),
   ("known_issues", Json.str e.known_issues),
   ("change_description", Json.str e.change_description),
   ("pr_links", Json.arr (e.pr_links.map Json.str)),
   ("design_links", Json.arr (e.design_links.map Json.str)),
   ("code_quality_links", Json.arr (e.code_quality_links.map Json.str)),
   ("additional_links", Json.arr (e.additional_links.map Json.str))]

theorem entryToJson_eq (e : ServiceEntry) : entryToJson e = Json.obj (entryMembers e) := rfl

/-- After a service entry is hydrated, its ten slots hold exactly the
entry's values (link lists joined with newlines). -/
def entrySlotsOK (st4 : SState) (k : String) (e : ServiceEntry) : Prop :=
  sget st4 (k ++ "_config_only") = some (PyVal.pjson (Json.bool e.config_only)) ∧
  sget st4 (k ++ "_risk_level") = some (PyVal.pjson (Json.str e.risk_level)) ∧
  sget st4 (k ++ "_benefit_level") = some (PyVal.pjson (Json.str e.benefit_level)) ∧
  sget st4 (k ++ "_version") = some (PyVal.pjson (Json.str e.version)) ∧
  sget st4 (k ++ "_known_issues") = some (PyVal.pjson (Json.str e.known_issues)) ∧
  sget st4 (k ++ "_change_description") = some (PyVal.pjson (Json.str e.change_description)) ∧
  sget st4 (k ++ "_pr_links") = some (PyVal.pstr (pyJoin "\n" e.pr_links)) ∧
  sget st4 (k ++ "_design_links") = some (PyVal.pstr (pyJoin "\n" e.design_links)) ∧
  sget st4 (k ++ "_code_quality_links") = some (PyVal.pstr (pyJoin "\n" e.code_quality_links)) ∧
  sget st4 (k ++ "_additional_links") = some (PyVal.pstr (pyJoin "\n" e.additional_links))

theorem hydrateSvc_entry (st : SState) (k : String) (e : ServiceEntry) :
    ∃ st2, hydrateSvc st k (entryToJson e) = some st2 := by
  rw [entryToJson_eq]
  have h1 : pyJoinNl (jsonGetD (entryMembers e) "pr_links" (Json.arr [])) =
      some (pyJoin "\n" e.pr_links) := by
    simp [entryMembers, jsonGetD, jsonLookup, pyJoinNl_mapStr]
  have h2 : pyJoinNl (jsonGetD (entryMembers e) "design_links" (Json.arr [])) =
      some (pyJoin "\n" e.design_links) := by
    simp [entryMembers, jsonGetD, jsonLookup, pyJoinNl_mapStr]
  have h3 : pyJoinNl (jsonGetD (entryMembers e) "code_quality_links" (Json.arr [])) =
      some (pyJoin "\n" e.code_quality_links) := by
    simp [entryMembers, jsonGetD, jsonLookup, pyJoinNl_mapStr]
  have h4 : pyJoinNl (jsonGetD (entryMembers e) "additional_links" (Json.arr [])) =
      some (pyJoin "\n" e.additional_links) := by
    simp [entryMembers, jsonGetD, jsonLookup, pyJoinNl_mapStr]
  exact ⟨_, hydrateSvc_eq st k (entryMembers e) _ _ _ _ h1 h2 h3 h4⟩

theorem entrySlots_of_hydrate (st : SState) (k : String) (e : ServiceEntry) (st2 : SState)
    (h : hydrateSvc st k (entryToJson e) = some st2) :
    entrySlotsOK st2 k e := by
  rw [entryToJson_eq] at h
  obtain ⟨h1, h2, h3, h4, h5, h6, h7, h8, h9, h10⟩ :=
    hydrateSvc_slots st k (entryMembers e) st2 h
  refine ⟨?_, ?_, ?_, ?_, ?_, ?_, ?_, ?_, ?_, ?_⟩
  · rw [h1]; simp [entryMembers, jsonGetD, jsonLookup]
  · rw [h2]; simp [entryMembers, jsonGetD, jsonLookup]
  · rw [h3]; simp [entryMembers, jsonGetD, jsonLookup]
  · rw [h4]; simp [entryMembers, jsonGetD, jsonLookup]
  · rw [h5]; simp [entryMembers, jsonGetD, jsonLookup]
  · rw [h6]; simp [entryMembers, jsonGetD, jsonLookup]
  · rw [h7]; simp [entryMembers, jsonGetD, jsonLookup, pyJoinNl_mapStr]
  · rw [h8]; simp [entryMembers, jsonGetD, jsonLookup, pyJoinNl_mapStr]
  · rw [h9]; simp [entryMembers, jsonGetD, jsonLookup, pyJoinNl_mapStr]
  · rw [h10]; simp [entryMembers, jsonGetD, jsonLookup, pyJoinNl_mapStr]

theorem entrySlotsOK_preserved (st st2 : SState) (a : String) (e : ServiceEntry)
    (hok : entrySlotsOK st a e)
    (hpres : ∀ suf ∈ slotSuffixes, sget st2 (a ++ suf) = sget st (a ++ suf)) :
    entrySlotsOK st2 a e := by
  obtain ⟨h1, h2, h3, h4, h5, h6, h7, h8, h9, h10⟩ := hok
  refine ⟨?_, ?_, ?_, ?_, ?_, ?_, ?_, ?_, ?_, ?_⟩
  · rw [hpres "_config_only" (by decide), h1]
  · rw [hpres "_risk_level" (by decide), h2]
  · rw [hpres "_benefit_level" (by decide), h3]
  · rw [hpres "_version" (by decide), h4]
  · rw [hpres "_known_issues" (by decide), h5]
  · rw [hpres "_change_description" (by decide), h6]
  · rw [hpres "_pr_links" (by decide), h7]
  · rw [hpres "_design_links" (by decide), h8]
  · rw [hpres "_code_quality_links" (by decide), h9]
  · rw [hpres "_additional_links" (by decide), h10]

theorem hydrateSvcs_record : ∀ (services : List (String × ServiceEntry)) (st : SState),
    ∃ st4, hydrateSvcs st (services.map (fun p => (p.1, entryToJson p.2))) = some st4 ∧
      (∀ k2, (∀ suf ∈ slotSuffixes, ¬ suf.data <:+ k2.data) → sget st4 k2 = sget st k2) ∧
      (∀ a suf, suf ∈ slotSuffixes → a ∉ services.map Prod.fst →
        sget st4 (a ++ suf) = sget st (a ++ suf)) ∧
      ((services.map Prod.fst).Nodup → ∀ p ∈ services, entrySlotsOK st4 p.1 p.2) := by
  intro services
  induction services with
  | nil =>
    intro st
    exact ⟨st, rfl, fun _ _ => rfl, fun _ _ _ _ => rfl,
      fun _ p hp => absurd hp (List.not_mem_nil p)⟩
  | cons q rest ih =>
    intro st
    obtain ⟨st2, hq⟩ := hydrateSvc_entry st q.1 q.2
    obtain ⟨st4, hrest, hfree, hforeign, hslots⟩ := ih st2
    refine ⟨st4, ?_, ?_, ?_, ?_⟩
    · rw [List.map_cons]
      simp only [hydrateSvcs, hq]
      exact hrest
    · intro k2 hk2
      rw [hfree k2 hk2, sget_hydrateSvc_free st q.1 _ st2 k2 hq hk2]
    · intro a suf hsuf ha
      have hane : a ≠ q.1 := by
        intro hh
        apply ha
        rw [List.map_cons, hh]
        exact List.mem_cons_self _ _
      rw [hforeign a suf hsuf (fun hh => ha (by rw [List.map_cons]; exact List.mem_cons_of_mem _ hh)),
          sget_hydrateSvc_foreign st q.1 _ st2 a suf hq hsuf hane]
    · intro hnd p hp
      rw [List.map_cons, List.nodup_cons] at hnd
      rcases List.mem_cons.mp hp with hpq | hpr2
      · subst hpq
        have hok := entrySlots_of_hydrate st p.1 p.2 st2 hq
        apply entrySlotsOK_preserved st2 st4 p.1 p.2 hok
        intro suf hsuf
        exact hforeign p.1 suf hsuf hnd.1
      · exact hslots hnd.2 p hpr2

theorem buildEntry_of_slots (st4 : SState) (k : String) (e : ServiceEntry)
    (hok : entrySlotsOK st4 k e)
    (hl : ∀ l ∈ e.pr_links ++ e.design_links ++ e.code_quality_links ++ e.additional_links,
      l ≠ "" ∧ pyStrip l = l ∧ ∀ c ∈ l.data, isLineBoundary c = false) :
    buildEntry st4 k = some (entryToJson e) := by
  obtain ⟨h1, h2, h3, h4, h5, h6, h7, h8, h9, h10⟩ := hok
  have hp : parse_links (pyJoin "\n" e.pr_links) = e.pr_links :=
    parse_links_join _ (fun l hx =>
      hl l (List.mem_append_left _ (List.mem_append_left _ (List.mem_append_left _ hx))))
  have hd : parse_links (pyJoin "\n" e.design_links) = e.design_links :=
    parse_links_join _ (fun l hx =>
      hl l (List.mem_append_left _ (List.mem_append_left _ (List.mem_append_right _ hx))))
  have hc : parse_links (pyJoin "\n" e.code_quality_links) = e.code_quality_links :=
    parse_links_join _ (fun l hx =>
      hl l (List.mem_append_left _ (List.mem_append_right _ hx)))
  have ha : parse_links (pyJoin "\n" e.additional_links) = e.additional_links :=
    parse_links_join _ (fun l hx => hl l (List.mem_append_right _ hx))
  simp [buildEntry, readBool, readStr, readSel, h1, h2, h3, h4, h5, h6, h7, h8, h9, h10,
    hp, hd, hc, ha, entryToJson]

theorem buildServices_of_slots : ∀ (services : List (String × ServiceEntry)) (st4 : SState),
    (∀ p ∈ services, entrySlotsOK st4 p.1 p.2) →
    (∀ p ∈ services, ∀ l ∈ p.2.pr_links ++ p.2.design_links ++
        p.2.code_quality_links ++ p.2.additional_links,
      l ≠ "" ∧ pyStrip l = l ∧ ∀ c ∈ l.data, isLineBoundary c = false) →
    buildServices st4 (services.map Prod.fst) =
      some (services.map (fun p => (p.1, entryToJson p.2))) := by
  intro services
  induction services with
  | nil => intro st4 hs hl; rfl
  | cons q rest ih =>
    intro st4 hs hl
    rw [List.map_cons, List.map_cons]
    simp only [buildServices,
      buildEntry_of_slots st4 q.1 q.2 (hs q (List.mem_cons_self _ _)) (hl q (List.mem_cons_self _ _)),
      ih st4 (fun p hp => hs p (List.mem_cons_of_mem _ hp))
        (fun p hp => hl p (List.mem_cons_of_mem _ hp)),
      Option.bind_some]
    rfl

theorem hydrate_build_reproduces (st : SState) (r : ReleaseRecord) (dd : PyDate)
    (contacts cfgSvcs : List String) (today : PyDate)
    (hd1 : date_fromisoformat r.release_date = some dd)
    (hd2 : dd.isoformat = r.release_date)
    (hnodup : (r.services.map Prod.fst).Nodup)
    (hlinks : ∀ p ∈ r.services, ∀ l ∈ p.2.pr_links ++ p.2.design_links ++
        p.2.code_quality_links ++ p.2.additional_links,
      l ≠ "" ∧ pyStrip l = l ∧ ∀ c ∈ l.data, isLineBoundary c = false) :
    ∃ st4, hydrate (recordToJson r) st = some st4 ∧
      buildFormData contacts cfgSvcs today st4 = some (recordToJson r) := by
  obtain ⟨st4, hrun, hfree, hforeign, hslots⟩ :=
    hydrateSvcs_record r.services
      (sset (sset (sset st "release_date" (PyVal.pdate dd))
        "contact" (PyVal.pjson (Json.str r.contact)))
        "selected_services" (PyVal.pstrList (r.services.map Prod.fst)))
  have hfst : List.map Prod.fst (List.map (fun p : String × ServiceEntry =>
      (p.1, entryToJson p.2)) r.services) = List.map Prod.fst r.services := by
    simp
  have hmain : hydrate (recordToJson r) st = some st4 := by
    rw [← hrun]
    simp [hydrate, recordToJson, jsonLookup, jsonGetD, hd1, sset, hfst]
  have hrd : sget st4 "release_date" = some (PyVal.pdate dd) := by
    rw [hfree "release_date" (by decide)]
    simp [sget, sset]
  have hct : sget st4 "contact" = some (PyVal.pjson (Json.str r.contact)) := by
    rw [hfree "contact" (by decide)]
    simp [sget, sset]
  have hsel : sget st4 "selected_services" = some (PyVal.pstrList (r.services.map Prod.fst)) := by
    rw [hfree "selected_services" (by decide)]
    simp [sget, sset]
  have hbs : buildServices st4 (r.services.map Prod.fst) =
      some (r.services.map (fun p => (p.1, entryToJson p.2))) :=
    buildServices_of_slots r.services st4 (hslots hnodup) hlinks
  refine ⟨st4, hmain, ?_⟩
  simp [buildFormData, hrd, hct, hsel, hbs, recordToJson, hd2]

/-- C2: the universally quantified reading fails — rehydrating a
decodable record does not always reproduce it exactly, because link
lines are stripped and blank lines dropped on re-parse, and absent
entry fields are completed with their defaults.  This shows the
claim's own cited record (which omits benefit_level, version,
known_issues, change_description and three link lists) is projected
to its schema completion, not to itself: the render pass completes
without error yet yields different JSON. -/
theorem C2_rehydration_counterexample :
    ((hydrate (Json.obj
        [("release_date", Json.str "2024-03-01"), ("contact", Json.str "Alice"),
         ("services", Json.obj [("Billing", Json.obj
           [("config_only", Json.bool true), ("risk_level", Json.str "High"),
            ("pr_links", Json.arr [Json.str "https://x/1", Json.str "https://x/2"])])])])
      []).bind (buildFormData ["Alice"] ["Billing"] ⟨2024, 1, 1⟩)).isSome = true ∧
    ((hydrate (Json.obj
        [("release_date", Json.str "2024-03-01"), ("contact", Json.str "Alice"),
         ("services", Json.obj [("Billing", Json.obj
           [("config_only", Json.bool true), ("risk_level", Json.str "High"),
            ("pr_links", Json.arr [Json.str "https://x/1", Json.str "https://x/2"])])])])
      []).bind (buildFormData ["Alice"] ["Billing"] ⟨2024, 1, 1⟩)) ≠
      some (Json.obj
        [("release_date", Json.str "2024-03-01"), ("contact", Json.str "Alice"),
         ("services", Json.obj [("Billing", Json.obj
           [("config_only", Json.bool true), ("risk_level", Json.str "High"),
            ("pr_links", Json.arr [Json.str "https://x/1", Json.str "https://x/2"])])])]) := by
  decide

/-- C2 (amended): for every complete schema record whose release_date
is a canonical ISO date, whose service names are distinct and whose
link entries are single-line, trimmed and non-blank, the deferred-load
protocol followed by the render pass reproduces exactly the record's
JSON, link sequences in original order — in particular the claim's
Billing record completed with the schema defaults. -/
theorem C2_rehydration_projection (st : SState) (r : ReleaseRecord) (dd : PyDate)
    (contacts cfgSvcs : List String) (today : PyDate)
    (hd1 : date_fromisoformat r.release_date = some dd)
    (hd2 : dd.isoformat = r.release_date)
    (hnodup : (r.services.map Prod.fst).Nodup)
    (hlinks : ∀ p ∈ r.services, ∀ l ∈ p.2.pr_links ++ p.2.design_links ++
        p.2.code_quality_links ++ p.2.additional_links,
      l ≠ "" ∧ pyStrip l = l ∧ ∀ c ∈ l.data, isLineBoundary c = false) :
    ∃ st4, hydrate (recordToJson r) st = some st4 ∧
      buildFormData contacts cfgSvcs today st4 = some (recordToJson r) :=
  hydrate_build_reproduces st r dd contacts cfgSvcs today hd1 hd2 hnodup hlinks

def c2Record : ReleaseRecord :=
  ⟨"2024-03-01", "Alice",
   [("Billing", ⟨true, "High", "Low", "", "", "", ["https://x/1", "https://x/2"], [], [], []⟩)]⟩

theorem C2_rehydration_projection_witness :
    date_fromisoformat c2Record.release_date = some ⟨2024, 3, 1⟩ ∧
    (∃ st4, hydrate (recordToJson c2Record) [] = some st4 ∧
      buildFormData ["Alice"] ["Billing"] ⟨2024, 1, 1⟩ st4 = some (recordToJson c2Record)) :=
  ⟨by decide, C2_rehydration_projection [] c2Record ⟨2024, 3, 1⟩ ["Alice"] ["Billing"]
    ⟨2024, 1, 1⟩ (by decide) (by decide) (by decide) (by decide)⟩

theorem jsonLookup_mapEntry : ∀ (services : List (String × ServiceEntry)) (k : String)
    (e : ServiceEntry), (services.map Prod.fst).Nodup → (k, e) ∈ services →
    jsonLookup (services.map (fun p => (p.1, entryToJson p.2))) k = some (entryToJson e) := by
  intro services
  induction services with
  | nil =>
    intro k e hnd hm
    exact absurd hm (List.not_mem_nil _)
  | cons q rest ih =>
    intro k e hnd hm
    rw [List.map_cons, List.nodup_cons] at hnd
    rcases List.mem_cons.mp hm with hq | hr
    · rw [← hq]
      simp [jsonLookup]
    · have hk : k ∈ rest.map Prod.fst := List.mem_map.mpr ⟨(k, e), hr, rfl⟩
      have hne : q.1 ≠ k := fun hh => hnd.1 (hh ▸ hk)
      rw [List.map_cons]
      simp only [jsonLookup, if_neg hne]
      exact ih k e hnd.2 hr

/-- C4: a record whose services mapping uses a name outside the
configured service set is tolerated, not rejected: the unpack and the
following render pass complete, the projection reproduces the whole
record, and the out-of-set service's entry is still present in the
projected services mapping. -/
theorem C4_unknown_service_tolerated (st : SState) (r : ReleaseRecord) (dd : PyDate)
    (contacts cfgSvcs : List String) (today : PyDate) (k : String) (e : ServiceEntry)
    (hd1 : date_fromisoformat r.release_date = some dd)
    (hd2 : dd.isoformat = r.release_date)
    (hnodup : (r.services.map Prod.fst).Nodup)
    (hlinks : ∀ p ∈ r.services, ∀ l ∈ p.2.pr_links ++ p.2.design_links ++
        p.2.code_quality_links ++ p.2.additional_links,
      l ≠ "" ∧ pyStrip l = l ∧ ∀ c ∈ l.data, isLineBoundary c = false)
    (hk : (k, e) ∈ r.services) (hout : k ∉ cfgSvcs) :
    ∃ st4, hydrate (recordToJson r) st = some st4 ∧
      buildFormData contacts cfgSvcs today st4 = some (recordToJson r) ∧
      jsonLookup (r.services.map (fun p => (p.1, entryToJson p.2))) k =
        some (entryToJson e) := by
  obtain ⟨st4, h1, h2⟩ :=
    hydrate_build_reproduces st r dd contacts cfgSvcs today hd1 hd2 hnodup hlinks
  exact ⟨st4, h1, h2, jsonLookup_mapEntry r.services k e hnodup hk⟩

def c4Record : ReleaseRecord :=
  ⟨"2024-03-01", "Alice",
   [("Ghost", ⟨false, "Low", "Low", "2.0", "", "retired service", [], [], [], []⟩)]⟩

theorem C4_unknown_service_tolerated_witness :
    ("Ghost", (⟨false, "Low", "Low", "2.0", "", "retired service", [], [], [], []⟩ :
        ServiceEntry)) ∈ c4Record.services ∧ "Ghost" ∉ ["Billing", "Payments"] ∧
    (∃ st4, hydrate (recordToJson c4Record) [] = some st4 ∧
      buildFormData ["Alice"] ["Billing", "Payments"] ⟨2024, 1, 1⟩ st4 =
        some (recordToJson c4Record) ∧
      jsonLookup (c4Record.services.map (fun p => (p.1, entryToJson p.2))) "Ghost" =
        some (entryToJson ⟨false, "Low", "Low", "2.0", "", "retired service", [], [], [], []⟩)) :=
  ⟨by decide, by decide,
   C4_unknown_service_tolerated [] c4Record ⟨2024, 3, 1⟩ ["Alice"] ["Billing", "Payments"]
     ⟨2024, 1, 1⟩ "Ghost" ⟨false, "Low", "Low", "2.0", "", "retired service", [], [], [], []⟩
     (by decide) (by decide) (by decide) (by decide) (by decide) (by decide)⟩

/-- C6: every field absent from a decoded service entry is read with
its documented default rather than raising: config_only defaults to
False, the two level enums to "Low", the text fields to "", and each
link list to the empty sequence (whose newline join is ""). -/
theorem C6_defaults_on_absence (st : SState) (svc : String) (dm : List (String × Json))
    (st2 : SState) (h : hydrateSvc st svc (Json.obj dm) = some st2) :
    (jsonLookup dm "config_only" = none →
      sget st2 (svc ++ "_config_only") = some (PyVal.pjson (Json.bool false))) ∧
    (jsonLookup dm "risk_level" = none →
      sget st2 (svc ++ "_risk_level") = some (PyVal.pjson (Json.str "Low"))) ∧
    (jsonLookup dm "benefit_level" = none →
      sget st2 (svc ++ "_benefit_level") = some (PyVal.pjson (Json.str "Low"))) ∧
    (jsonLookup dm "version" = none →
      sget st2 (svc ++ "_version") = some (PyVal.pjson (Json.str ""))) ∧
    (jsonLookup dm "known_issues" = none →
      sget st2 (svc ++ "_known_issues") = some (PyVal.pjson (Json.str ""))) ∧
    (jsonLookup dm "change_description" = none →
      sget st2 (svc ++ "_change_description") = some (PyVal.pjson (Json.str ""))) ∧
    (jsonLookup dm "pr_links" = none →
      sget st2 (svc ++ "_pr_links") = some (PyVal.pstr "")) ∧
    (jsonLookup dm "design_links" = none →
      sget st2 (svc ++ "_design_links") = some (PyVal.pstr "")) ∧
    (jsonLookup dm "code_quality_links" = none →
      sget st2 (svc ++ "_code_quality_links") = some (PyVal.pstr "")) ∧
    (jsonLookup dm "additional_links" = none →
      sget st2 (svc ++ "_additional_links") = some (PyVal.pstr "")) := by
  obtain ⟨h1, h2, h3, h4, h5, h6, h7, h8, h9, h10⟩ := hydrateSvc_slots st svc dm st2 h
  refine ⟨?_, ?_, ?_, ?_, ?_, ?_, ?_, ?_, ?_, ?_⟩
  · intro habs; rw [h1]; simp [jsonGetD, habs]
  · intro habs; rw [h2]; simp [jsonGetD, habs]
  · intro habs; rw [h3]; simp [jsonGetD, habs]
  · intro habs; rw [h4]; simp [jsonGetD, habs]
  · intro habs; rw [h5]; simp [jsonGetD, habs]
  · intro habs; rw [h6]; simp [jsonGetD, habs]
  · intro habs; rw [h7]; simp [jsonGetD, habs]; rfl
  · intro habs; rw [h8]; simp [jsonGetD, habs]; rfl
  · intro habs; rw [h9]; simp [jsonGetD, habs]; rfl
  · intro habs; rw [h10]; simp [jsonGetD, habs]; rfl

theorem C6_defaults_on_absence_witness :
    hydrateSvc [] "Billing" (Json.obj []) = some
      [("Billing_additional_links", PyVal.pstr ""),
       ("Billing_code_quality_links", PyVal.pstr ""),
       ("Billing_design_links", PyVal.pstr ""),
       ("Billing_change_description", PyVal.pjson (Json.str "")),
       ("Billing_pr_links", PyVal.pstr ""),
       ("Billing_known_issues", PyVal.pjson (Json.str "")),
       ("Billing_version", PyVal.pjson (Json.str "")),
       ("Billing_benefit_level", PyVal.pjson (Json.str "Low")),
       ("Billing_risk_level", PyVal.pjson (Json.str "Low")),
       ("Billing_config_only", PyVal.pjson (Json.bool false))] ∧
    (jsonLookup [] "config_only" = none →
      sget [("Billing_additional_links", PyVal.pstr ""),
       ("Billing_code_quality_links", PyVal.pstr ""),
       ("Billing_design_links", PyVal.pstr ""),
       ("Billing_change_description", PyVal.pjson (Json.str "")),
       ("Billing_pr_links", PyVal.pstr ""),
       ("Billing_known_issues", PyVal.pjson (Json.str "")),
       ("Billing_version", PyVal.pjson (Json.str "")),
       ("Billing_benefit_level", PyVal.pjson (Json.str "Low")),
       ("Billing_risk_level", PyVal.pjson (Json.str "Low")),
       ("Billing_config_only", PyVal.pjson (Json.bool false))]
        ("Billing" ++ "_config_only") = some (PyVal.pjson (Json.bool false))) :=
  ⟨by decide, (C6_defaults_on_absence [] "Billing" []
    [("Billing_additional_links", PyVal.pstr ""),
     ("Billing_code_quality_links", PyVal.pstr ""),
     ("Billing_design_links", PyVal.pstr ""),
     ("Billing_change_description", PyVal.pjson (Json.str "")),
     ("Billing_pr_links", PyVal.pstr ""),
     ("Billing_known_issues", PyVal.pjson (Json.str "")),
     ("Billing_version", PyVal.pjson (Json.str "")),
     ("Billing_benefit_level", PyVal.pjson (Json.str "Low")),
     ("Billing_risk_level", PyVal.pjson (Json.str "Low")),
     ("Billing_config_only", PyVal.pjson (Json.bool false))] (by decide)).1⟩

theorem hydrateSvcs_free : ∀ (svcs : List (String × Json)) (st st2 : SState),
    hydrateSvcs st svcs = some st2 →
    ∀ k, (∀ suf ∈ slotSuffixes, ¬ suf.data <:+ k.data) → sget st2 k = sget st k := by
  intro svcs
  induction svcs with
  | nil =>
    intro st st2 h k hk
    simp only [hydrateSvcs, Option.some.injEq] at h
    rw [← h]
  | cons q rest ih =>
    intro st st2 h k hk
    cases hsv : hydrateSvc st q.1 q.2 with
    | none => simp [hydrateSvcs, hsv] at h
    | some stm =>
      have h2 : hydrateSvcs stm rest = some st2 := by
        cases q
        simpa [hydrateSvcs, hsv] using h
      rw [ih stm st2 h2 k hk, sget_hydrateSvc_free st q.1 q.2 stm k hsv hk]

/-- C7: when release_date is present but unparseable, the date slot is
skipped — it keeps whatever it held before the import — while the rest
of the unpack proceeds normally: a present contact is stored and
selected_services is set to the services keys. -/
theorem C7_unparseable_date_skipped (st : SState) (ms : List (String × Json)) (s : String)
    (st2 : SState)
    (hrd : jsonLookup ms "release_date" = some (Json.str s))
    (hbad : date_fromisoformat s = none)
    (h : hydrate (Json.obj ms) st = some st2) :
    sget st2 "release_date" = sget st "release_date" ∧
    (∀ v, jsonLookup ms "contact" = some v → sget st2 "contact" = some (PyVal.pjson v)) ∧
    (∀ svcs, jsonGetD ms "services" (Json.obj []) = Json.obj svcs →
      sget st2 "selected_services" = some (PyVal.pstrList (svcs.map Prod.fst))) := by
  simp only [hydrate, hrd, hbad] at h
  cases hsv : jsonGetD ms "services" (Json.obj []) with
  | obj svcs =>
    rw [hsv] at h
    cases hct : jsonLookup ms "contact" with
    | none =>
      rw [hct] at h
      have hfree := hydrateSvcs_free svcs _ st2 h
      refine ⟨?_, ?_, ?_⟩
      · rw [hfree "release_date" (by decide)]
        simp [sget, sset]
      · intro v hv
        exact absurd hv (by simp)
      · intro svcs2 hsv2
        cases hsv2
        rw [hfree "selected_services" (by decide)]
        simp [sget, sset]
    | some v0 =>
      rw [hct] at h
      have hfree := hydrateSvcs_free svcs _ st2 h
      refine ⟨?_, ?_, ?_⟩
      · rw [hfree "release_date" (by decide)]
        simp [sget, sset]
      · intro v hv
        rw [Option.some.injEq] at hv
        subst hv
        rw [hfree "contact" (by decide)]
        simp [sget, sset]
      · intro svcs2 hsv2
        cases hsv2
        rw [hfree "selected_services" (by decide)]
        simp [sget, sset]
  | null => rw [hsv] at h; exact absurd h (by simp)
  | bool b => rw [hsv] at h; exact absurd h (by simp)
  | num t => rw [hsv] at h; exact absurd h (by simp)
  | str s2 => rw [hsv] at h; exact absurd h (by simp)
  | arr xs => rw [hsv] at h; exact absurd h (by simp)

theorem C7_unparseable_date_skipped_witness :
    jsonLookup [("release_date", Json.str "not-a-date"), ("contact", Json.str "Bob")]
      "release_date" = some (Json.str "not-a-date") ∧
    date_fromisoformat "not-a-date" = none ∧
    (sget [("selected_services", PyVal.pstrList []),
          ("contact", PyVal.pjson (Json.str "Bob")),
          ("release_date", PyVal.pdate ⟨2020, 1, 1⟩)] "release_date" =
      sget [("release_date", PyVal.pdate ⟨2020, 1, 1⟩)] "release_date" ∧
    (∀ v, jsonLookup [("release_date", Json.str "not-a-date"), ("contact", Json.str "Bob")]
        "contact" = some v →
      sget [("selected_services", PyVal.pstrList []),
           ("contact", PyVal.pjson (Json.str "Bob")),
           ("release_date", PyVal.pdate ⟨2020, 1, 1⟩)] "contact" = some (PyVal.pjson v)) ∧
    (∀ svcs, jsonGetD [("release_date", Json.str "not-a-date"), ("contact", Json.str "Bob")]
        "services" (Json.obj []) = Json.obj svcs →
      sget [("selected_services", PyVal.pstrList []),
           ("contact", PyVal.pjson (Json.str "Bob")),
           ("release_date", PyVal.pdate ⟨2020, 1, 1⟩)] "selected_services" =
        some (PyVal.pstrList (svcs.map Prod.fst)))) :=
  ⟨by decide, by decide,
   C7_unparseable_date_skipped [("release_date", PyVal.pdate ⟨2020, 1, 1⟩)]
     [("release_date", Json.str "not-a-date"), ("contact", Json.str "Bob")] "not-a-date"
     [("selected_services", PyVal.pstrList []),
      ("contact", PyVal.pjson (Json.str "Bob")),
      ("release_date", PyVal.pdate ⟨2020, 1, 1⟩)]
     (by decide) (by decide) (by decide)⟩

/-- C10: absence of top-level keys is handled asymmetrically by the
pending_load unpack (same code in the generator page and app.py): a
missing contact or release_date leaves the prior session value in
place, but a missing services key resets selected_services to the
empty list unconditionally. -/
theorem C10_absent_key_asymmetry (st : SState) (ms : List (String × Json)) (st2 : SState)
    (h : hydrate (Json.obj ms) st = some st2) :
    (jsonLookup ms "release_date" = none →
      sget st2 "release_date" = sget st "release_date") ∧
    (jsonLookup ms "contact" = none → sget st2 "contact" = sget st "contact") ∧
    (jsonLookup ms "services" = none →
      sget st2 "selected_services" = some (PyVal.pstrList [])) := by
  simp only [hydrate] at h
  cases hsv : jsonGetD ms "services" (Json.obj []) with
  | obj svcs =>
    rw [hsv] at h
    have hfree := hydrateSvcs_free svcs _ st2 h
    refine ⟨?_, ?_, ?_⟩
    · intro habs
      rw [hfree "release_date" (by decide), habs]
      cases hct : jsonLookup ms "contact" with
      | none => simp [sget, sset]
      | some v => simp [sget, sset]
    · intro habs
      rw [hfree "contact" (by decide), habs]
      cases hrd : jsonLookup ms "release_date" with
      | none => simp [sget, sset]
      | some v =>
        cases v with
        | str s =>
          cases hdt : date_fromisoformat s with
          | none => simp [hdt, sget, sset]
          | some d => simp [hdt, sget, sset]
        | null => simp [sget, sset]
        | bool b => simp [sget, sset]
        | num t => simp [sget, sset]
        | arr xs => simp [sget, sset]
        | obj ms2 => simp [sget, sset]
    · intro habs
      have hsvnil : svcs = [] := by
        rw [jsonGetD, habs] at hsv
        cases hsv
        rfl
      subst hsvnil
      rw [hfree "selected_services" (by decide)]
      simp [sget, sset]
  | null => rw [hsv] at h; exact absurd h (by simp)
  | bool b => rw [hsv] at h; exact absurd h (by simp)
  | num t => rw [hsv] at h; exact absurd h (by simp)
  | str s2 => rw [hsv] at h; exact absurd h (by simp)
  | arr xs => rw [hsv] at h; exact absurd h (by simp)

theorem C10_absent_key_asymmetry_witness :
    hydrate (Json.obj [])
      [("release_date", PyVal.pdate ⟨2020, 1, 1⟩), ("contact", PyVal.pjson (Json.str "X")),
       ("selected_services", PyVal.pstrList ["Old"])] = some
      [("selected_services", PyVal.pstrList []),
       ("release_date", PyVal.pdate ⟨2020, 1, 1⟩), ("contact", PyVal.pjson (Json.str "X")),
       ("selected_services", PyVal.pstrList ["Old"])] ∧
    ((jsonLookup [] "release_date" = none →
      sget [("selected_services", PyVal.pstrList []),
        ("release_date", PyVal.pdate ⟨2020, 1, 1⟩), ("contact", PyVal.pjson (Json.str "X")),
        ("selected_services", PyVal.pstrList ["Old"])] "release_date" =
      sget [("release_date", PyVal.pdate ⟨2020, 1, 1⟩), ("contact", PyVal.pjson (Json.str "X")),
        ("selected_services", PyVal.pstrList ["Old"])] "release_date") ∧
    (jsonLookup [] "contact" = none →
      sget [("selected_services", PyVal.pstrList []),
        ("release_date", PyVal.pdate ⟨2020, 1, 1⟩), ("contact", PyVal.pjson (Json.str "X")),
        ("selected_services", PyVal.pstrList ["Old"])] "contact" =
      sget [("release_date", PyVal.pdate ⟨2020, 1, 1⟩), ("contact", PyVal.pjson (Json.str "X")),
        ("selected_services", PyVal.pstrList ["Old"])] "contact") ∧
    (jsonLookup [] "services" = none →
      sget [("selected_services", PyVal.pstrList []),
        ("release_date", PyVal.pdate ⟨2020, 1, 1⟩), ("contact", PyVal.pjson (Json.str "X")),
        ("selected_services", PyVal.pstrList ["Old"])] "selected_services" =
      some (PyVal.pstrList []))) :=
  ⟨by decide,
   C10_absent_key_asymmetry
     [("release_date", PyVal.pdate ⟨2020, 1, 1⟩), ("contact", PyVal.pjson (Json.str "X")),
      ("selected_services", PyVal.pstrList ["Old"])] []
     [("selected_services", PyVal.pstrList []),
      ("release_date", PyVal.pdate ⟨2020, 1, 1⟩), ("contact", PyVal.pjson (Json.str "X")),
      ("selected_services", PyVal.pstrList ["Old"])] (by decide)⟩

/-! ## The consolidator page: collection, ingest and removal

Each collected note is a dict with a freshly generated identifier and
the decoded data (consolidator lines 64-67, 95-97); uuid4 generation
is modelled by a counter handing out one new id per append, so ids of
newly added notes are distinct and larger than the counter's start. -/

structure Note where
  id : Nat
  data : Json
deriving DecidableEq

structure IngestResult where
  notes : List Note
  nextId : Nat
  successes : Nat
  failures : Nat
deriving DecidableEq

/-- The per-line loop of _on_add_click (consolidator lines 92-100):
each line is decoded independently; a success appends one note at the
end, a ValueError counts one failure and never stops the loop. -/
def ingestLines (notes : List Note) (nextId : Nat) : List String → IngestResult
  | [] => ⟨notes, nextId, 0, 0⟩
  | l :: rest =>
    match decode_b64_to_json l.data with
    | some data =>
      let r := ingestLines (notes ++ [⟨nextId, data⟩]) (nextId + 1) rest
      ⟨r.notes, r.nextId, r.successes + 1, r.failures⟩
    | none =>
      let r := ingestLines notes nextId rest
      ⟨r.notes, r.nextId, r.successes, r.failures + 1⟩

/-- _on_add_click (consolidator lines 81-111): a blank paste is a
warning and changes nothing; otherwise the input is split into
stripped non-blank lines (the same computation as _parse_links) and
each is ingested independently. -/
def ingest (notes : List Note) (nextId : Nat) (raw : String) : IngestResult :=
  if pyStrip raw == "" then ⟨notes, nextId, 0, 0⟩
  else ingestLines notes nextId (parse_links raw)

/-- The remove button (consolidator line 281): keep every note whose
identifier differs. -/
def removeNote (notes : List Note) (noteId : Nat) : List Note :=
  notes.filter (fun n => n.id != noteId)

theorem ingestLines_spec : ∀ (lines : List String) (notes : List Note) (nextId : Nat),
    ∃ added : List Note,
      ingestLines notes nextId lines =
        ⟨notes ++ added, nextId + added.length, added.length, lines.length - added.length⟩ ∧
      added.length ≤ lines.length ∧
      added.map Note.data = lines.filterMap (fun l => decode_b64_to_json l.data) ∧
      added.map Note.id = List.range' nextId added.length := by
  intro lines
  induction lines with
  | nil =>
    intro notes nextId
    exact ⟨[], by simp [ingestLines], by simp, by simp, by simp⟩
  | cons l rest ih =>
    intro notes nextId
    cases hdec : decode_b64_to_json l.data with
    | some data =>
      obtain ⟨added, h1, h2, h3, h4⟩ := ih (notes ++ [⟨nextId, data⟩]) (nextId + 1)
      refine ⟨⟨nextId, data⟩ :: added, ?_, ?_, ?_, ?_⟩
      · simp only [ingestLines, hdec, h1]
        simp only [IngestResult.mk.injEq, List.append_assoc, List.singleton_append,
          List.length_cons, true_and, and_true]
        omega
      · simp only [List.length_cons]
        omega
      · simp only [List.map_cons, List.filterMap_cons, hdec, h3]
      · simp only [List.map_cons, h4, List.length_cons, List.range'_succ]
    | none =>
      obtain ⟨added, h1, h2, h3, h4⟩ := ih notes nextId
      refine ⟨added, ?_, ?_, ?_, ?_⟩
      · simp only [ingestLines, hdec, h1]
        simp only [IngestResult.mk.injEq, List.length_cons, true_and, and_true]
        omega
      · simp only [List.length_cons]
        omega
      · simp only [List.filterMap_cons, hdec, h3]
      · exact h4

/-- C5: for a non-blank paste, ingest splits the text into stripped
non-blank lines, decodes each independently and appends the successes
(with fresh, pairwise distinct identifiers) at the end of the existing
collection in input line order, counting successes and failures; a
failing line never blocks the rest.  In particular three lines of
which only the second is invalid yield 2 successes, 1 failure, and the
two decoded entries in original relative order. -/
theorem C5_ingest_isolation (notes : List Note) (nextId : Nat) (raw : String)
    (hnb : (pyStrip raw == "") = false) :
    ∃ added : List Note,
      ingest notes nextId raw =
        ⟨notes ++ added, nextId + added.length, added.length,
         (parse_links raw).length - added.length⟩ ∧
      added.map Note.data = (parse_links raw).filterMap (fun l => decode_b64_to_json l.data) ∧
      added.map Note.id = List.range' nextId added.length := by
  obtain ⟨added, h1, h2, h3, h4⟩ := ingestLines_spec (parse_links raw) notes nextId
  refine ⟨added, ?_, h3, h4⟩
  rw [ingest, if_neg (by simp [hnb]), h1]

theorem C5_ingest_isolation_witness :
    (pyStrip "e30=\n!!!\ne30=" == "") = false ∧
    (∃ added : List Note,
      ingest [] 0 "e30=\n!!!\ne30=" =
        ⟨[] ++ added, 0 + added.length, added.length,
         (parse_links "e30=\n!!!\ne30=").length - added.length⟩ ∧
      added.map Note.data =
        (parse_links "e30=\n!!!\ne30=").filterMap (fun l => decode_b64_to_json l.data) ∧
      added.map Note.id = List.range' 0 added.length) :=
  ⟨by decide, C5_ingest_isolation [] 0 "e30=\n!!!\ne30=" (by decide)⟩

example : ingest [] 0 "e30=\n!!!\ne30=" =
    ⟨[⟨0, Json.obj []⟩, ⟨1, Json.obj []⟩], 2, 2, 1⟩ := by decide

/-- C8: the remove handler keeps exactly the notes with a different
identifier: under distinct identifiers it removes exactly the one
matching entry preserving the order of the others, it is a no-op when
no entry carries the identifier, and it is idempotent. -/
theorem C8_remove_exactly_one (notes : List Note) (i : Nat) :
    ((notes.map Note.id).Nodup → ∀ e ∈ notes, e.id = i →
      ∃ pre post, notes = pre ++ e :: post ∧ removeNote notes i = pre ++ post) ∧
    ((∀ n ∈ notes, n.id ≠ i) → removeNote notes i = notes) ∧
    removeNote (removeNote notes i) i = removeNote notes i := by
  refine ⟨?_, ?_, ?_⟩
  · intro hnd e he hei
    induction notes with
    | nil => exact absurd he (List.not_mem_nil e)
    | cons n rest ih =>
      rw [List.map_cons, List.nodup_cons] at hnd
      rcases List.mem_cons.mp he with hne | hmem
      · subst hne
        refine ⟨[], rest, by simp, ?_⟩
        rw [removeNote, List.filter_cons]
        rw [if_neg (by simp [hei])]
        simp only [List.nil_append]
        rw [List.filter_eq_self]
        intro a ha
        simp only [bne_iff_ne, ne_eq]
        intro hai
        apply hnd.1
        rw [hei, ← hai]
        exact List.mem_map.mpr ⟨a, ha, rfl⟩
      · obtain ⟨pre, post, hsplit, hrem⟩ := ih hnd.2 hmem
        refine ⟨n :: pre, post, by rw [hsplit]; rfl, ?_⟩
        rw [removeNote, List.filter_cons]
        rw [if_pos ?keep]
        case keep =>
          simp only [bne_iff_ne, ne_eq]
          intro hni
          apply hnd.1
          rw [hni, ← hei]
          exact List.mem_map.mpr ⟨e, hmem, rfl⟩
        exact congrArg (fun x => n :: x) hrem
  · intro habs
    rw [removeNote, List.filter_eq_self]
    intro a ha
    simp only [bne_iff_ne, ne_eq]
    exact habs a ha
  · simp only [removeNote, List.filter_filter]
    simp

/-- C3: the code has a single failure mode, not two.  Decode raises
exactly one error (ValueError "Invalid base64 encoded JSON."), and it
does so precisely when one of the three stages — base64 decoding,
UTF-8 decoding of the bytes, JSON parsing of the text — fails; no
schema check happens, so a decodable non-object payload is returned
as a value instead of raising. -/
theorem C3_decode_single_failure_mode (s : List Char) :
    decode_b64_to_json s = none ↔
      (b64decode s = none ∨
       (∃ bs, b64decode s = some bs ∧ utf8Decode bs = none) ∨
       (∃ bs cs, b64decode s = some bs ∧ utf8Decode bs = some cs ∧ jsonLoads cs = none)) := by
  cases hb : b64decode s with
  | none => simp [decode_b64_to_json, hb]
  | some bs =>
    cases hu : utf8Decode bs with
    | none => simp [decode_b64_to_json, hb, hu]
    | some cs =>
      cases hj : jsonLoads cs with
      | none => simp [decode_b64_to_json, hb, hu, hj]
      | some v => simp [decode_b64_to_json, hb, hu, hj]

/-- C3's original classification is refuted by a concrete input: the
base64 text "NQ==" decodes to the JSON scalar 5, which the code
returns as a value — no SchemaError (nor any error) is raised for a
payload that is not an object of key/value pairs. -/
theorem C3_nonrecord_returned :
    decode_b64_to_json ("NQ==".data) = some (Json.num "5") := by decide

theorem C8_remove_exactly_one_witness :
    removeNote [⟨1, Json.obj []⟩, ⟨2, Json.null⟩] 3 = [⟨1, Json.obj []⟩, ⟨2, Json.null⟩] ∧
    removeNote (removeNote [⟨1, Json.obj []⟩, ⟨2, Json.null⟩] 1) 1 =
      removeNote [⟨1, Json.obj []⟩, ⟨2, Json.null⟩] 1 :=
  ⟨(C8_remove_exactly_one [⟨1, Json.obj []⟩, ⟨2, Json.null⟩] 3).2.1 (by decide),
   (C8_remove_exactly_one [⟨1, Json.obj []⟩, ⟨2, Json.null⟩] 1).2.2⟩
